import Mathlib

/-!
Verification of the quadtree spatial index (src/src/quadtree.rs).

Shallow embedding conventions:
- Coordinates are modelled as exact rationals; the data model of the spec
  treats coordinates as real values, and none of the verified claims depends
  on floating point rounding.
- The Rust functions mutate the tree in place; here every operation returns
  the updated tree.
- The recursive insert (together with subdivide, which calls insert back) is
  modelled with an explicit fuel argument. A result of none means the call
  does not return a value: either the recursion did not bottom out within
  the given fuel, or an unwrap of a None child field failed. Statements about
  termination quantify over all fuel values.
- search is structurally recursive on the finite tree; its result is an
  Option so that an unwrap of a None child field (possible only on trees
  whose child fields are not uniformly present) is modelled as no result.
-/

namespace Quad

/-- Boundary defines an enclosed rectangular area (fields as in the source:
x1, x2, y1, y2). -/
structure Boundary where
  x1 : ℚ
  x2 : ℚ
  y1 : ℚ
  y2 : ℚ
deriving DecidableEq

/-- A Point holds (x, y) coordinates, source type (f64, f64), modelled over
the rationals. -/
abbrev Point : Type := ℚ × ℚ

/-- Quadtree node: a boundary, a buffer of points, and four optional child
nodes, exactly the fields of struct Quadtree in the source. -/
inductive Quadtree : Type where
  | mk (boundary : Boundary) (points : List Point)
      (top_left_child bottom_left_child top_right_child bottom_right_child : Option Quadtree)

def Quadtree.boundary : (t : Quadtree) → Boundary
  | .mk b _ _ _ _ _ => b

def Quadtree.points : (t : Quadtree) → List Point
  | .mk _ ps _ _ _ _ => ps

def Quadtree.top_left_child : (t : Quadtree) → Option Quadtree
  | .mk _ _ a _ _ _ => a

def Quadtree.bottom_left_child : (t : Quadtree) → Option Quadtree
  | .mk _ _ _ a _ _ => a

def Quadtree.top_right_child : (t : Quadtree) → Option Quadtree
  | .mk _ _ _ _ a _ => a

def Quadtree.bottom_right_child : (t : Quadtree) → Option Quadtree
  | .mk _ _ _ _ _ a => a

/-- MAX_CAPACITY from the source: maximum number of points in a node before
it subdivides. -/
def MAX_CAPACITY : Nat := 100

/-- contains from the source: point.0 >= x1 && point.0 <= x2 &&
point.1 >= y1 && point.1 <= y2. -/
def contains (boundary : Boundary) (point : Point) : Bool :=
  decide (point.1 ≥ boundary.x1) && decide (point.1 ≤ boundary.x2) &&
  decide (point.2 ≥ boundary.y1) && decide (point.2 ≤ boundary.y2)

/-- intersects from the source: x1 <= other.x2 && x2 >= other.x1 &&
y1 <= other.y2 && y2 >= other.y1. -/
def intersects (boundary_1 boundary_2 : Boundary) : Bool :=
  decide (boundary_1.x1 ≤ boundary_2.x2) && decide (boundary_1.x2 ≥ boundary_2.x1) &&
  decide (boundary_1.y1 ≤ boundary_2.y2) && decide (boundary_1.y2 ≥ boundary_2.y1)

/-- Midpoint of the x axis of a boundary, (x1 + x2) / 2 in subdivide. -/
def mid_x (b : Boundary) : ℚ := (b.x1 + b.x2) / 2

/-- Midpoint of the y axis of a boundary, (y1 + y2) / 2 in subdivide. -/
def mid_y (b : Boundary) : ℚ := (b.y1 + b.y2) / 2

/-- Boundary of the top left child created by subdivide. -/
def topLeftB (b : Boundary) : Boundary := ⟨b.x1, mid_x b, b.y1, mid_y b⟩

/-- Boundary of the bottom left child created by subdivide. -/
def bottomLeftB (b : Boundary) : Boundary := ⟨b.x1, mid_x b, mid_y b, b.y2⟩

/-- Boundary of the top right child created by subdivide. -/
def topRightB (b : Boundary) : Boundary := ⟨mid_x b, b.x2, b.y1, mid_y b⟩

/-- Boundary of the bottom right child created by subdivide. -/
def bottomRightB (b : Boundary) : Boundary := ⟨mid_x b, b.x2, mid_y b, b.y2⟩

/-- Try inserting a point into four child nodes in the fixed order top left,
bottom left, top right, bottom right, stopping at the first success. This is
the control flow of the redistribution loop in subdivide (and of the four
chained child inserts in insert). A child rejected insert keeps its possibly
updated state, exactly as the in-place mutation does. The first component of
the result records whether some child accepted the point. -/
def tryFour (ins : Quadtree → Point → Option (Bool × Quadtree))
    (cs : Quadtree × Quadtree × Quadtree × Quadtree) (point : Point) :
    Option (Bool × (Quadtree × Quadtree × Quadtree × Quadtree)) := do
  let r1 ← ins cs.1 point
  if r1.1 then pure (true, (r1.2, cs.2.1, cs.2.2.1, cs.2.2.2)) else do
  let r2 ← ins cs.2.1 point
  if r2.1 then pure (true, (r1.2, r2.2, cs.2.2.1, cs.2.2.2)) else do
  let r3 ← ins cs.2.2.1 point
  if r3.1 then pure (true, (r1.2, r2.2, r3.2, cs.2.2.2)) else do
  let r4 ← ins cs.2.2.2 point
  pure (r4.1, (r1.2, r2.2, r3.2, r4.2))

/-- The redistribution loop of subdivide: move every buffered point into the
first child (in the fixed order) that accepts it; a point accepted by no
child is dropped. ins is the recursive insert call at the current fuel. -/
def distributePoints (ins : Quadtree → Point → Option (Bool × Quadtree)) :
    List Point → Quadtree × Quadtree × Quadtree × Quadtree →
    Option (Quadtree × Quadtree × Quadtree × Quadtree)
  | [], cs => pure cs
  | point :: ps, cs => do
      let rs ← tryFour ins cs point
      distributePoints ins ps rs.2

/-- subdivide from the source: create the four quadrant children as empty
leaves, move the buffered points into them with the redistribution loop, and
clear the buffer of this node. ins is the recursive insert call. -/
def subdivide (ins : Quadtree → Point → Option (Bool × Quadtree))
    (node : Quadtree) : Option Quadtree :=
  match node with
  | .mk b pts _ _ _ _ => do
      let tl0 : Quadtree := .mk (topLeftB b) [] none none none none
      let bl0 : Quadtree := .mk (bottomLeftB b) [] none none none none
      let tr0 : Quadtree := .mk (topRightB b) [] none none none none
      let br0 : Quadtree := .mk (bottomRightB b) [] none none none none
      let cs ← distributePoints ins pts (tl0, bl0, tr0, br0)
      pure (.mk b [] (some cs.1) (some cs.2.1) (some cs.2.2.1) (some cs.2.2.2))

/-- The four chained child inserts at the end of insert: each child field is
unwrapped right before its own insert call (an unwrap of none gives no
result), a success returns true immediately, and after four failures the
fall-through result is false. Updated children are kept in place. -/
def insertChildren (ins : Quadtree → Point → Option (Bool × Quadtree))
    (node : Quadtree) (point : Point) : Option (Bool × Quadtree) :=
  match node with
  | .mk b pts tl bl tr br => do
      let c1 ← tl
      let r1 ← ins c1 point
      if r1.1 then pure (true, .mk b pts (some r1.2) bl tr br) else do
      let c2 ← bl
      let r2 ← ins c2 point
      if r2.1 then pure (true, .mk b pts (some r1.2) (some r2.2) tr br) else do
      let c3 ← tr
      let r3 ← ins c3 point
      if r3.1 then pure (true, .mk b pts (some r1.2) (some r2.2) (some r3.2) br) else do
      let c4 ← br
      let r4 ← ins c4 point
      pure (r4.1, .mk b pts (some r1.2) (some r2.2) (some r3.2) (some r4.2))

/-- insert from the source, with fuel for the recursion. Return false if the
point is outside the boundary of the node; append it to the buffer when the
node is a leaf below capacity; otherwise subdivide first when the node is
still a leaf, then try the four children in the fixed order. -/
def insert : Nat → Quadtree → Point → Option (Bool × Quadtree)
  | 0, _, _ => none
  | fuel+1, Quadtree.mk b pts tl bl tr br, point =>
    if contains b point = false then
      some (false, Quadtree.mk b pts tl bl tr br)
    else if pts.length < MAX_CAPACITY && tl.isNone then
      some (true, Quadtree.mk b (pts ++ [point]) tl bl tr br)
    else do
      let node ←
        if tl.isNone then subdivide (fun u q => insert fuel u q) (Quadtree.mk b pts tl bl tr br)
        else pure (Quadtree.mk b pts tl bl tr br)
      insertChildren (fun u q => insert fuel u q) node point

mutual

/-- search from the source: prune when the node boundary does not intersect
the query, filter the buffer at a leaf, and otherwise concatenate the
results of the four children in the fixed order. Each child field of an
inner node is unwrapped; an unwrap of none gives no result. -/
def search : Quadtree → Boundary → Option (List Point)
  | .mk b pts tl bl tr br, boundary =>
    if intersects b boundary = false then some []
    else if tl.isNone then some (pts.filter (fun point => contains boundary point))
    else do
      let r1 ← searchO tl boundary
      let r2 ← searchO bl boundary
      let r3 ← searchO tr boundary
      let r4 ← searchO br boundary
      pure (r1 ++ r2 ++ r3 ++ r4)

/-- Unwrap of a child field followed by the recursive search call: an
absent child is a failed unwrap, so no result. -/
def searchO : Option Quadtree → Boundary → Option (List Point)
  | none, _ => none
  | some t, boundary => search t boundary

end

theorem searchO_some (t : Quadtree) (Q : Boundary) : searchO (some t) Q = search t Q := by
  rw [searchO]

/-- create_quad_tree from the source: an empty leaf with the given boundary. -/
def create_quad_tree (boundary : Boundary) : Quadtree :=
  Quadtree.mk boundary [] none none none none

/-- naive_search from the source: linear scan filtering by contains. -/
def naive_search (points : List Point) (boundary : Boundary) : List Point :=
  points.filter (fun point => contains boundary point)

/-- All points buffered anywhere in the subtree rooted at a node. -/
def Quadtree.elems : Quadtree → List Point
  | .mk _ pts tl bl tr br =>
    pts ++ (match tl with | none => [] | some c => c.elems)
        ++ (match bl with | none => [] | some c => c.elems)
        ++ (match tr with | none => [] | some c => c.elems)
        ++ (match br with | none => [] | some c => c.elems)

/-- Structural well-formedness invariant maintained by the program: a node
is either a leaf (all four child fields absent, at most MAX_CAPACITY
buffered points, each inside the node boundary) or an inner node (all four
child fields present, empty buffer, a nonempty boundary, and children whose
boundaries are exactly the four quadrants), recursively. -/
def WF : Quadtree → Bool
  | .mk b pts none none none none =>
      decide (pts.length ≤ MAX_CAPACITY) && pts.all (fun point => contains b point)
  | .mk b pts (some c1) (some c2) (some c3) (some c4) =>
      decide (pts = []) && decide (b.x1 ≤ b.x2) && decide (b.y1 ≤ b.y2) &&
      decide (c1.boundary = topLeftB b) && decide (c2.boundary = bottomLeftB b) &&
      decide (c3.boundary = topRightB b) && decide (c4.boundary = bottomRightB b) &&
      WF c1 && WF c2 && WF c3 && WF c4
  | _ => false

/-- The four child fields are all absent or all present, recursively; this
is the part of the invariant that makes every child unwrap succeed. -/
def Uniform : Quadtree → Bool
  | .mk _ _ none none none none => true
  | .mk _ _ (some c1) (some c2) (some c3) (some c4) =>
      Uniform c1 && Uniform c2 && Uniform c3 && Uniform c4
  | _ => false

/-- Every leaf buffer is strictly below capacity (and child fields are
uniform); inserting into such a tree never triggers a subdivision. -/
def RoomAll : Quadtree → Bool
  | .mk _ pts none none none none => decide (pts.length < MAX_CAPACITY)
  | .mk _ _ (some c1) (some c2) (some c3) (some c4) =>
      RoomAll c1 && RoomAll c2 && RoomAll c3 && RoomAll c4
  | _ => false

/-- Height of a tree: 0 at a node with no present child, otherwise one more
than the largest child height. -/
def heightQ : Quadtree → Nat
  | .mk _ _ tl bl tr br =>
    let h1 := match tl with | none => 0 | some c => heightQ c + 1
    let h2 := match bl with | none => 0 | some c => heightQ c + 1
    let h3 := match tr with | none => 0 | some c => heightQ c + 1
    let h4 := match br with | none => 0 | some c => heightQ c + 1
    max (max h1 h2) (max h3 h4)

/-- The four child directions, in the fixed order used by the program. -/
inductive Dir : Type where
  | tl
  | bl
  | tr
  | br
deriving DecidableEq

/-- The child field of a node selected by a direction. -/
def childD : Quadtree → Dir → Option Quadtree
  | .mk _ _ a _ _ _, .tl => a
  | .mk _ _ _ a _ _, .bl => a
  | .mk _ _ _ _ a _, .tr => a
  | .mk _ _ _ _ _ a, .br => a

/-- The node of a tree at a path of child directions, when present. Paths
give the position of a node inside the tree, so that a node can be tracked
across an insertion. -/
def nodeAt : Quadtree → List Dir → Option Quadtree
  | t, [] => some t
  | t, d :: ds => match childD t d with
      | none => none
      | some c => nodeAt c ds

/-- All four child fields absent. -/
def allNone (t : Quadtree) : Bool :=
  t.top_left_child.isNone && t.bottom_left_child.isNone &&
  t.top_right_child.isNone && t.bottom_right_child.isNone

/-- All four child fields present. -/
def allSome (t : Quadtree) : Bool :=
  t.top_left_child.isSome && t.bottom_left_child.isSome &&
  t.top_right_child.isSome && t.bottom_right_child.isSome

/-- Structural growth: the second tree has the same boundary, and wherever
the first tree is already subdivided the second one is subdivided as well,
with children growing correspondingly. An insertion only grows the tree, so
a node that is an inner node never reverts to a leaf. -/
def Grows : Quadtree → Quadtree → Prop
  | .mk b _ none _ _ _, t2 => t2.boundary = b
  | .mk b _ (some c1) bl tr br, t2 =>
      t2.boundary = b ∧
      (∃ d, t2.top_left_child = some d ∧ Grows c1 d) ∧
      (match bl with
        | none => True
        | some c => ∃ d, t2.bottom_left_child = some d ∧ Grows c d) ∧
      (match tr with
        | none => True
        | some c => ∃ d, t2.top_right_child = some d ∧ Grows c d) ∧
      (match br with
        | none => True
        | some c => ∃ d, t2.bottom_right_child = some d ∧ Grows c d)

/-- Trees built by create_quad_tree followed by a finite sequence of insert
calls with the given boundary; the list collects exactly the points whose
insertion returned true (the inserted points). -/
inductive Built : Boundary → List Point → Quadtree → Prop where
  | nil (b : Boundary) : Built b [] (create_quad_tree b)
  | ins_true {b : Boundary} {ps : List Point} {t : Quadtree} (fuel : Nat)
      (point : Point) (t' : Quadtree) (hb : Built b ps t)
      (h : insert fuel t point = some (true, t')) : Built b (ps ++ [point]) t'
  | ins_false {b : Boundary} {ps : List Point} {t : Quadtree} (fuel : Nat)
      (point : Point) (t' : Quadtree) (hb : Built b ps t)
      (h : insert fuel t point = some (false, t')) : Built b ps t'

/-- A tree reachable from create_quad_tree by insert calls. -/
def Reachable (t : Quadtree) : Prop := ∃ b ps, Built b ps t

/-- Insertion of the point into the tree returns a value for some fuel,
that is, the recursion bottoms out. -/
def InsertTerminates (t : Quadtree) (point : Point) : Prop :=
  ∃ fuel r t', insert fuel t point = some (r, t')

/-! ## Basic lemmas -/

theorem quadtree_ind (motive : Quadtree → Prop)
    (h : ∀ b pts tl bl tr br,
        (∀ c, tl = some c → motive c) → (∀ c, bl = some c → motive c) →
        (∀ c, tr = some c → motive c) → (∀ c, br = some c → motive c) →
        motive (Quadtree.mk b pts tl bl tr br)) :
    ∀ t, motive t := by
  intro t
  have hacc : ∀ u : Quadtree, (∀ v : Quadtree, sizeOf v < sizeOf u → motive v) → motive u := by
    intro u ih
    match u with
    | Quadtree.mk b pts tl bl tr br =>
      apply h <;> intro c hc <;> apply ih <;> subst hc <;> simp <;> omega
  have hwf : WellFounded (fun a b : Quadtree => sizeOf a < sizeOf b) :=
    (invImage sizeOf Nat.lt_wfRel).wf
  exact WellFounded.induction hwf t hacc

@[simp] theorem boundary_mk (b : Boundary) (pts : List Point) (tl bl tr br : Option Quadtree) :
    (Quadtree.mk b pts tl bl tr br).boundary = b := rfl

@[simp] theorem points_mk (b : Boundary) (pts : List Point) (tl bl tr br : Option Quadtree) :
    (Quadtree.mk b pts tl bl tr br).points = pts := rfl

@[simp] theorem tl_mk (b : Boundary) (pts : List Point) (tl bl tr br : Option Quadtree) :
    (Quadtree.mk b pts tl bl tr br).top_left_child = tl := rfl

@[simp] theorem bl_mk (b : Boundary) (pts : List Point) (tl bl tr br : Option Quadtree) :
    (Quadtree.mk b pts tl bl tr br).bottom_left_child = bl := rfl

@[simp] theorem tr_mk (b : Boundary) (pts : List Point) (tl bl tr br : Option Quadtree) :
    (Quadtree.mk b pts tl bl tr br).top_right_child = tr := rfl

@[simp] theorem br_mk (b : Boundary) (pts : List Point) (tl bl tr br : Option Quadtree) :
    (Quadtree.mk b pts tl bl tr br).bottom_right_child = br := rfl

theorem quadtree_eta : ∀ t : Quadtree, t = Quadtree.mk t.boundary t.points
    t.top_left_child t.bottom_left_child t.top_right_child t.bottom_right_child
  | .mk _ _ _ _ _ _ => rfl

theorem contains_iff (b : Boundary) (p : Point) :
    contains b p = true ↔ b.x1 ≤ p.1 ∧ p.1 ≤ b.x2 ∧ b.y1 ≤ p.2 ∧ p.2 ≤ b.y2 := by
  simp [contains, and_assoc, ge_iff_le]

theorem intersects_iff (a b : Boundary) :
    intersects a b = true ↔ a.x1 ≤ b.x2 ∧ b.x1 ≤ a.x2 ∧ a.y1 ≤ b.y2 ∧ b.y1 ≤ a.y2 := by
  simp [intersects, and_assoc, ge_iff_le]

theorem contains_both_intersects (b q : Boundary) (p : Point)
    (hb : contains b p = true) (hq : contains q p = true) : intersects b q = true := by
  rw [contains_iff] at hb hq
  rw [intersects_iff]
  obtain ⟨h1, h2, h3, h4⟩ := hb
  obtain ⟨g1, g2, g3, g4⟩ := hq
  exact ⟨le_trans h1 g2, le_trans g1 h2, le_trans h3 g4, le_trans g3 h4⟩

theorem quad_cover (b : Boundary) (p : Point) (h : contains b p = true) :
    contains (topLeftB b) p = true ∨ contains (bottomLeftB b) p = true ∨
    contains (topRightB b) p = true ∨ contains (bottomRightB b) p = true := by
  rw [contains_iff] at h
  obtain ⟨h1, h2, h3, h4⟩ := h
  rcases le_total p.1 (mid_x b) with hx | hx <;> rcases le_total p.2 (mid_y b) with hy | hy
  · exact Or.inl (by rw [contains_iff]; exact ⟨h1, hx, h3, hy⟩)
  · exact Or.inr (Or.inl (by rw [contains_iff]; exact ⟨h1, hx, hy, h4⟩))
  · exact Or.inr (Or.inr (Or.inl (by rw [contains_iff]; exact ⟨hx, h2, h3, hy⟩)))
  · exact Or.inr (Or.inr (Or.inr (by rw [contains_iff]; exact ⟨hx, h2, hy, h4⟩)))

theorem mid_x_mem (b : Boundary) (h : b.x1 ≤ b.x2) : b.x1 ≤ mid_x b ∧ mid_x b ≤ b.x2 := by
  unfold mid_x
  constructor <;> linarith

theorem mid_y_mem (b : Boundary) (h : b.y1 ≤ b.y2) : b.y1 ≤ mid_y b ∧ mid_y b ≤ b.y2 := by
  unfold mid_y
  constructor <;> linarith

theorem quad_subset (b : Boundary) (p : Point) (hx : b.x1 ≤ b.x2) (hy : b.y1 ≤ b.y2)
    (h : contains (topLeftB b) p = true ∨ contains (bottomLeftB b) p = true ∨
      contains (topRightB b) p = true ∨ contains (bottomRightB b) p = true) :
    contains b p = true := by
  obtain ⟨hx1, hx2⟩ := mid_x_mem b hx
  obtain ⟨hy1, hy2⟩ := mid_y_mem b hy
  rw [contains_iff]
  rcases h with h | h | h | h <;> rw [contains_iff] at h <;>
    obtain ⟨h1, h2, h3, h4⟩ := h <;>
    simp only [topLeftB, bottomLeftB, topRightB, bottomRightB] at h1 h2 h3 h4 <;>
    exact ⟨by linarith, by linarith, by linarith, by linarith⟩

theorem inverted_contains_false (q : Boundary) (p : Point)
    (h : q.x2 < q.x1 ∨ q.y2 < q.y1) : contains q p = false := by
  rcases hc : contains q p
  · rfl
  · rw [contains_iff] at hc
    rcases h with h | h <;> [linarith [hc.1, hc.2.1]; linarith [hc.2.2.1, hc.2.2.2]]

/-! ## Invariant lemmas -/

theorem WF_tl_none {b : Boundary} {pts : List Point} {bl tr br : Option Quadtree}
    (h : WF (Quadtree.mk b pts none bl tr br) = true) :
    bl = none ∧ tr = none ∧ br = none := by
  cases bl <;> cases tr <;> cases br <;> simp_all [WF]

theorem WF_leaf_elim {b : Boundary} {pts : List Point}
    (h : WF (Quadtree.mk b pts none none none none) = true) :
    pts.length ≤ MAX_CAPACITY ∧ ∀ p ∈ pts, contains b p = true := by
  simp [WF, List.all_eq_true] at h
  exact ⟨h.1, fun p hp => h.2 p.1 p.2 hp⟩

theorem WF_leaf_intro {b : Boundary} {pts : List Point}
    (h1 : pts.length ≤ MAX_CAPACITY) (h2 : ∀ p ∈ pts, contains b p = true) :
    WF (Quadtree.mk b pts none none none none) = true := by
  simp [WF, List.all_eq_true]
  exact ⟨h1, fun a c hac => h2 (a, c) hac⟩

theorem WF_inner_elim {b : Boundary} {pts : List Point} {c1 : Quadtree}
    {bl tr br : Option Quadtree}
    (h : WF (Quadtree.mk b pts (some c1) bl tr br) = true) :
    ∃ c2 c3 c4, bl = some c2 ∧ tr = some c3 ∧ br = some c4 ∧
      pts = [] ∧ b.x1 ≤ b.x2 ∧ b.y1 ≤ b.y2 ∧
      c1.boundary = topLeftB b ∧ c2.boundary = bottomLeftB b ∧
      c3.boundary = topRightB b ∧ c4.boundary = bottomRightB b ∧
      WF c1 = true ∧ WF c2 = true ∧ WF c3 = true ∧ WF c4 = true := by
  cases bl with
  | none => simp [WF] at h
  | some c2 =>
    cases tr with
    | none => simp [WF] at h
    | some c3 =>
      cases br with
      | none => simp [WF] at h
      | some c4 =>
        refine ⟨c2, c3, c4, rfl, rfl, rfl, ?_⟩
        simp [WF] at h
        tauto

theorem WF_inner_intro {b : Boundary} {c1 c2 c3 c4 : Quadtree}
    (hx : b.x1 ≤ b.x2) (hy : b.y1 ≤ b.y2)
    (h1 : c1.boundary = topLeftB b) (h2 : c2.boundary = bottomLeftB b)
    (h3 : c3.boundary = topRightB b) (h4 : c4.boundary = bottomRightB b)
    (w1 : WF c1 = true) (w2 : WF c2 = true) (w3 : WF c3 = true) (w4 : WF c4 = true) :
    WF (Quadtree.mk b [] (some c1) (some c2) (some c3) (some c4)) = true := by
  simp [WF]
  tauto

theorem elems_leaf (b : Boundary) (pts : List Point) :
    (Quadtree.mk b pts none none none none).elems = pts := by
  simp [Quadtree.elems]

theorem elems_inner (b : Boundary) (pts : List Point) (c1 c2 c3 c4 : Quadtree) :
    (Quadtree.mk b pts (some c1) (some c2) (some c3) (some c4)).elems =
      pts ++ c1.elems ++ c2.elems ++ c3.elems ++ c4.elems := by
  simp [Quadtree.elems]

theorem mem_elems_contains :
    ∀ t : Quadtree, WF t = true → ∀ p ∈ t.elems, contains t.boundary p = true := by
  intro t
  induction t using quadtree_ind with
  | h b pts tl bl tr br ih1 ih2 ih3 ih4 =>
    intro hw p hp
    cases tl with
    | none =>
      obtain ⟨e2, e3, e4⟩ := WF_tl_none hw
      subst e2; subst e3; subst e4
      rw [elems_leaf] at hp
      exact (WF_leaf_elim hw).2 p hp
    | some c1 =>
      obtain ⟨c2, c3, c4, e2, e3, e4, hpts, hx, hy, hb1, hb2, hb3, hb4, w1, w2, w3, w4⟩ :=
        WF_inner_elim hw
      subst e2; subst e3; subst e4; subst hpts
      rw [elems_inner] at hp
      simp only [List.append_assoc, List.mem_append, List.nil_append] at hp
      apply quad_subset b p hx hy
      rcases hp with hp | hp | hp | hp
      · exact Or.inl (hb1 ▸ ih1 c1 rfl w1 p hp)
      · exact Or.inr (Or.inl (hb2 ▸ ih2 c2 rfl w2 p hp))
      · exact Or.inr (Or.inr (Or.inl (hb3 ▸ ih3 c3 rfl w3 p hp)))
      · exact Or.inr (Or.inr (Or.inr (hb4 ▸ ih4 c4 rfl w4 p hp)))

theorem Grows_refl : ∀ t : Quadtree, Grows t t := by
  intro t
  induction t using quadtree_ind with
  | h b pts tl bl tr br ih1 ih2 ih3 ih4 =>
    cases tl with
    | none => simp [Grows]
    | some c1 =>
      rw [Grows.eq_def]
      refine ⟨rfl, ⟨c1, rfl, ih1 c1 rfl⟩, ?_, ?_, ?_⟩
      · cases bl with
        | none => trivial
        | some c => exact ⟨c, rfl, ih2 c rfl⟩
      · cases tr with
        | none => trivial
        | some c => exact ⟨c, rfl, ih3 c rfl⟩
      · cases br with
        | none => trivial
        | some c => exact ⟨c, rfl, ih4 c rfl⟩

/-- Growth on an optional child: an absent child constrains nothing, a
present child must stay present and grow. -/
def growsO : Option Quadtree → Option Quadtree → Prop
  | none, _ => True
  | some c, o => ∃ d, o = some d ∧ Grows c d

theorem Grows_leaf_iff {b : Boundary} {pts : List Point} {bl tr br : Option Quadtree}
    {t2 : Quadtree} : Grows (Quadtree.mk b pts none bl tr br) t2 ↔ t2.boundary = b := by
  rw [Grows.eq_def]

theorem Grows_inner_iff {b : Boundary} {pts : List Point} {c1 : Quadtree}
    {bl tr br : Option Quadtree} {t2 : Quadtree} :
    Grows (Quadtree.mk b pts (some c1) bl tr br) t2 ↔
      t2.boundary = b ∧ growsO (some c1) t2.top_left_child ∧
      growsO bl t2.bottom_left_child ∧ growsO tr t2.top_right_child ∧
      growsO br t2.bottom_right_child := by
  rw [Grows.eq_def]
  cases bl <;> cases tr <;> cases br <;> simp [growsO]

theorem Grows_boundary {t1 t2 : Quadtree} (h : Grows t1 t2) : t2.boundary = t1.boundary := by
  cases t1 with
  | mk b pts tl bl tr br =>
    cases tl with
    | none => rw [Grows_leaf_iff] at h; simp [h]
    | some c1 => rw [Grows_inner_iff] at h; simp [h.1]

theorem childD_tl (t : Quadtree) : childD t Dir.tl = t.top_left_child := by
  cases t; rfl

theorem childD_bl (t : Quadtree) : childD t Dir.bl = t.bottom_left_child := by
  cases t; rfl

theorem childD_tr (t : Quadtree) : childD t Dir.tr = t.top_right_child := by
  cases t; rfl

theorem childD_br (t : Quadtree) : childD t Dir.br = t.bottom_right_child := by
  cases t; rfl

theorem WF_childD {t c : Quadtree} {d : Dir} (hw : WF t = true)
    (hc : childD t d = some c) : WF c = true := by
  cases t with
  | mk b pts tl bl tr br =>
    cases tl with
    | none =>
      obtain ⟨e2, e3, e4⟩ := WF_tl_none hw
      subst e2; subst e3; subst e4
      cases d <;> simp [childD] at hc
    | some c1 =>
      obtain ⟨c2, c3, c4, e2, e3, e4, _, _, _, _, _, _, _, w1, w2, w3, w4⟩ :=
        WF_inner_elim hw
      subst e2; subst e3; subst e4
      cases d <;> simp [childD] at hc <;> subst hc <;> assumption

theorem WF_nodeAt {t n : Quadtree} {path : List Dir} (hw : WF t = true)
    (hn : nodeAt t path = some n) : WF n = true := by
  induction path generalizing t with
  | nil => simp [nodeAt] at hn; subst hn; exact hw
  | cons d ds ih =>
    simp only [nodeAt] at hn
    cases hc : childD t d with
    | none => rw [hc] at hn; simp at hn
    | some c =>
      rw [hc] at hn
      exact ih (WF_childD hw hc) hn

theorem Grows_nodeAt {path : List Dir} :
    ∀ {t t2 n : Quadtree}, WF t = true → Grows t t2 → nodeAt t path = some n →
      n.top_left_child.isSome = true →
      ∃ n2, nodeAt t2 path = some n2 ∧ n2.top_left_child.isSome = true := by
  induction path with
  | nil =>
    intro t t2 n hw hg hn hi
    simp only [nodeAt, Option.some_inj] at hn
    subst hn
    cases t with
    | mk b pts tl bl tr br =>
      cases tl with
      | none => simp at hi
      | some c1 =>
        rw [Grows_inner_iff] at hg
        obtain ⟨d, hd, _⟩ := hg.2.1
        exact ⟨t2, by simp [nodeAt], by simp [hd]⟩
  | cons d ds ih =>
    intro t t2 n hw hg hn hi
    simp only [nodeAt] at hn
    cases hc : childD t d with
    | none => rw [hc] at hn; simp at hn
    | some c =>
      rw [hc] at hn
      cases t with
      | mk b pts tl bl tr br =>
        cases tl with
        | none =>
          obtain ⟨e2, e3, e4⟩ := WF_tl_none hw
          subst e2; subst e3; subst e4
          cases d <;> simp [childD] at hc
        | some c1 =>
          rw [Grows_inner_iff] at hg
          obtain ⟨hb, g1, g2, g3, g4⟩ := hg
          obtain ⟨c2, c3, c4, e2, e3, e4, _, _, _, _, _, _, _, w1, w2, w3, w4⟩ :=
            WF_inner_elim hw
          subst e2; subst e3; subst e4
          cases t2 with
          | mk b2 pts2 tl2 bl2 tr2 br2 =>
            cases d
            all_goals simp only [childD] at hc
            · obtain ⟨d1, hd1, hgd⟩ := g1
              rw [Option.some_inj] at hc
              subst hc
              obtain ⟨n2, hn2, hi2⟩ := ih w1 hgd hn hi
              simp only [tl_mk] at hd1
              exact ⟨n2, by simp [nodeAt, childD, hd1, hn2], hi2⟩
            · obtain ⟨d2, hd2, hgd⟩ := g2
              rw [Option.some_inj] at hc
              subst hc
              obtain ⟨n2, hn2, hi2⟩ := ih w2 hgd hn hi
              simp only [bl_mk] at hd2
              exact ⟨n2, by simp [nodeAt, childD, hd2, hn2], hi2⟩
            · obtain ⟨d3, hd3, hgd⟩ := g3
              rw [Option.some_inj] at hc
              subst hc
              obtain ⟨n2, hn2, hi2⟩ := ih w3 hgd hn hi
              simp only [tr_mk] at hd3
              exact ⟨n2, by simp [nodeAt, childD, hd3, hn2], hi2⟩
            · obtain ⟨d4, hd4, hgd⟩ := g4
              rw [Option.some_inj] at hc
              subst hc
              obtain ⟨n2, hn2, hi2⟩ := ih w4 hgd hn hi
              simp only [br_mk] at hd4
              exact ⟨n2, by simp [nodeAt, childD, hd4, hn2], hi2⟩

/-! ## The insert specification -/

/-- Specification of one insert call on well formed trees: well formedness
and the boundary are preserved, a false result means the point was outside
and nothing changed, a true result means the point was inside and the stored
collection grew by exactly that point, and the tree only grows. -/
def InsOk (ins : Quadtree → Point → Option (Bool × Quadtree)) : Prop :=
  ∀ t point r t', WF t = true → ins t point = some (r, t') →
    WF t' = true ∧ t'.boundary = t.boundary ∧
    (r = false → t' = t ∧ contains t.boundary point = false) ∧
    (r = true → contains t.boundary point = true ∧ t'.elems.Perm (point :: t.elems)) ∧
    Grows t t'

theorem insert_succ_outside {b : Boundary} {point : Point} (fuel : Nat)
    (pts : List Point) (tl bl tr br : Option Quadtree)
    (hc : contains b point = false) :
    insert (fuel+1) (Quadtree.mk b pts tl bl tr br) point =
      some (false, Quadtree.mk b pts tl bl tr br) := by
  simp [insert, hc]

theorem insert_succ_room {b : Boundary} {point : Point} {pts : List Point} (fuel : Nat)
    (bl tr br : Option Quadtree)
    (hc : contains b point = true) (hlen : pts.length < MAX_CAPACITY) :
    insert (fuel+1) (Quadtree.mk b pts none bl tr br) point =
      some (true, Quadtree.mk b (pts ++ [point]) none bl tr br) := by
  simp [insert, hc, hlen]

theorem insert_succ_full_leaf {b : Boundary} {point : Point} {pts : List Point} (fuel : Nat)
    (bl tr br : Option Quadtree)
    (hc : contains b point = true) (hlen : ¬ pts.length < MAX_CAPACITY) :
    insert (fuel+1) (Quadtree.mk b pts none bl tr br) point =
      (subdivide (fun u q => insert fuel u q) (Quadtree.mk b pts none bl tr br)).bind
        (fun node => insertChildren (fun u q => insert fuel u q) node point) := by
  simp [insert, hc, hlen]

theorem insert_succ_inner {b : Boundary} {point : Point} {pts : List Point}
    {c1 : Quadtree} (fuel : Nat) (bl tr br : Option Quadtree)
    (hc : contains b point = true) :
    insert (fuel+1) (Quadtree.mk b pts (some c1) bl tr br) point =
      insertChildren (fun u q => insert fuel u q)
        (Quadtree.mk b pts (some c1) bl tr br) point := by
  simp [insert, hc]

theorem tryFour_spec {ins : Quadtree → Point → Option (Bool × Quadtree)}
    (IH : InsOk ins) {c1 c2 c3 c4 d1 d2 d3 d4 : Quadtree} {point : Point} {r : Bool}
    (w1 : WF c1 = true) (w2 : WF c2 = true) (w3 : WF c3 = true) (w4 : WF c4 = true)
    (h : tryFour ins (c1, c2, c3, c4) point = some (r, (d1, d2, d3, d4))) :
    (r = false ∧ d1 = c1 ∧ d2 = c2 ∧ d3 = c3 ∧ d4 = c4 ∧
      contains c1.boundary point = false ∧ contains c2.boundary point = false ∧
      contains c3.boundary point = false ∧ contains c4.boundary point = false) ∨
    (r = true ∧ contains c1.boundary point = true ∧ ins c1 point = some (true, d1) ∧
      WF d1 = true ∧ d1.boundary = c1.boundary ∧ d1.elems.Perm (point :: c1.elems) ∧
      Grows c1 d1 ∧ d2 = c2 ∧ d3 = c3 ∧ d4 = c4) ∨
    (r = true ∧ contains c1.boundary point = false ∧ d1 = c1 ∧
      contains c2.boundary point = true ∧ ins c2 point = some (true, d2) ∧
      WF d2 = true ∧ d2.boundary = c2.boundary ∧ d2.elems.Perm (point :: c2.elems) ∧
      Grows c2 d2 ∧ d3 = c3 ∧ d4 = c4) ∨
    (r = true ∧ contains c1.boundary point = false ∧ d1 = c1 ∧
      contains c2.boundary point = false ∧ d2 = c2 ∧
      contains c3.boundary point = true ∧ ins c3 point = some (true, d3) ∧
      WF d3 = true ∧ d3.boundary = c3.boundary ∧ d3.elems.Perm (point :: c3.elems) ∧
      Grows c3 d3 ∧ d4 = c4) ∨
    (r = true ∧ contains c1.boundary point = false ∧ d1 = c1 ∧
      contains c2.boundary point = false ∧ d2 = c2 ∧
      contains c3.boundary point = false ∧ d3 = c3 ∧
      contains c4.boundary point = true ∧ ins c4 point = some (true, d4) ∧
      WF d4 = true ∧ d4.boundary = c4.boundary ∧ d4.elems.Perm (point :: c4.elems) ∧
      Grows c4 d4) := by
  cases h1 : ins c1 point with
  | none => simp [tryFour, h1] at h
  | some p1 =>
    obtain ⟨rb1, e1⟩ := p1
    obtain ⟨v1, vb1, vf1, vt1, vg1⟩ := IH c1 point rb1 e1 w1 h1
    cases rb1 with
    | true =>
      simp [tryFour, h1] at h
      obtain ⟨hr, he1, he2, he3, he4⟩ := h
      subst he1; subst he2; subst he3; subst he4
      obtain ⟨hcon, hperm⟩ := vt1 rfl
      exact Or.inr (Or.inl ⟨hr, hcon, rfl, v1, vb1, hperm, vg1, rfl, rfl, rfl⟩)
    | false =>
      obtain ⟨he1, hnc1⟩ := vf1 rfl
      subst he1
      cases h2 : ins c2 point with
      | none => simp [tryFour, h1, h2] at h
      | some p2 =>
        obtain ⟨rb2, e2⟩ := p2
        obtain ⟨v2, vb2, vf2, vt2, vg2⟩ := IH c2 point rb2 e2 w2 h2
        cases rb2 with
        | true =>
          simp [tryFour, h1, h2] at h
          obtain ⟨hr, he1, he2, he3, he4⟩ := h
          subst he1; subst he2; subst he3; subst he4
          obtain ⟨hcon, hperm⟩ := vt2 rfl
          exact Or.inr (Or.inr (Or.inl
            ⟨hr, hnc1, rfl, hcon, rfl, v2, vb2, hperm, vg2, rfl, rfl⟩))
        | false =>
          obtain ⟨he2, hnc2⟩ := vf2 rfl
          subst he2
          cases h3 : ins c3 point with
          | none => simp [tryFour, h1, h2, h3] at h
          | some p3 =>
            obtain ⟨rb3, e3⟩ := p3
            obtain ⟨v3, vb3, vf3, vt3, vg3⟩ := IH c3 point rb3 e3 w3 h3
            cases rb3 with
            | true =>
              simp [tryFour, h1, h2, h3] at h
              obtain ⟨hr, he1, he2, he3, he4⟩ := h
              subst he1; subst he2; subst he3; subst he4
              obtain ⟨hcon, hperm⟩ := vt3 rfl
              exact Or.inr (Or.inr (Or.inr (Or.inl
                ⟨hr, hnc1, rfl, hnc2, rfl, hcon, rfl, v3, vb3, hperm, vg3, rfl⟩)))
            | false =>
              obtain ⟨he3, hnc3⟩ := vf3 rfl
              subst he3
              cases h4 : ins c4 point with
              | none => simp [tryFour, h1, h2, h3, h4] at h
              | some p4 =>
                obtain ⟨rb4, e4⟩ := p4
                obtain ⟨v4, vb4, vf4, vt4, vg4⟩ := IH c4 point rb4 e4 w4 h4
                simp [tryFour, h1, h2, h3, h4] at h
                obtain ⟨hr, he1, he2, he3, he4⟩ := h
                subst he1; subst he2; subst he3; subst he4
                cases rb4 with
                | true =>
                  obtain ⟨hcon, hperm⟩ := vt4 rfl
                  exact Or.inr (Or.inr (Or.inr (Or.inr
                    ⟨hr.symm, hnc1, rfl, hnc2, rfl, hnc3, rfl, hcon, rfl, v4, vb4,
                      hperm, vg4⟩)))
                | false =>
                  obtain ⟨he4, hnc4⟩ := vf4 rfl
                  subst he4
                  exact Or.inl ⟨hr.symm, rfl, rfl, rfl, rfl, hnc1, hnc2, hnc3, hnc4⟩

theorem insertChildren_spec {ins : Quadtree → Point → Option (Bool × Quadtree)}
    (IH : InsOk ins) {b : Boundary} {pts : List Point} {c1 c2 c3 c4 t' : Quadtree}
    {point : Point} {r : Bool}
    (w1 : WF c1 = true) (w2 : WF c2 = true) (w3 : WF c3 = true) (w4 : WF c4 = true)
    (h : insertChildren ins
      (Quadtree.mk b pts (some c1) (some c2) (some c3) (some c4)) point = some (r, t')) :
    (r = false ∧ t' = Quadtree.mk b pts (some c1) (some c2) (some c3) (some c4) ∧
      contains c1.boundary point = false ∧ contains c2.boundary point = false ∧
      contains c3.boundary point = false ∧ contains c4.boundary point = false) ∨
    (r = true ∧ contains c1.boundary point = true ∧
      ∃ d1, ins c1 point = some (true, d1) ∧
        t' = Quadtree.mk b pts (some d1) (some c2) (some c3) (some c4) ∧
        WF d1 = true ∧ d1.boundary = c1.boundary ∧
        d1.elems.Perm (point :: c1.elems) ∧ Grows c1 d1) ∨
    (r = true ∧ contains c1.boundary point = false ∧ contains c2.boundary point = true ∧
      ∃ d2, ins c2 point = some (true, d2) ∧
        t' = Quadtree.mk b pts (some c1) (some d2) (some c3) (some c4) ∧
        WF d2 = true ∧ d2.boundary = c2.boundary ∧
        d2.elems.Perm (point :: c2.elems) ∧ Grows c2 d2) ∨
    (r = true ∧ contains c1.boundary point = false ∧ contains c2.boundary point = false ∧
      contains c3.boundary point = true ∧
      ∃ d3, ins c3 point = some (true, d3) ∧
        t' = Quadtree.mk b pts (some c1) (some c2) (some d3) (some c4) ∧
        WF d3 = true ∧ d3.boundary = c3.boundary ∧
        d3.elems.Perm (point :: c3.elems) ∧ Grows c3 d3) ∨
    (r = true ∧ contains c1.boundary point = false ∧ contains c2.boundary point = false ∧
      contains c3.boundary point = false ∧ contains c4.boundary point = true ∧
      ∃ d4, ins c4 point = some (true, d4) ∧
        t' = Quadtree.mk b pts (some c1) (some c2) (some c3) (some d4) ∧
        WF d4 = true ∧ d4.boundary = c4.boundary ∧
        d4.elems.Perm (point :: c4.elems) ∧ Grows c4 d4) := by
  cases h1 : ins c1 point with
  | none => simp [insertChildren, h1] at h
  | some p1 =>
    obtain ⟨rb1, e1⟩ := p1
    obtain ⟨v1, vb1, vf1, vt1, vg1⟩ := IH c1 point rb1 e1 w1 h1
    cases rb1 with
    | true =>
      simp [insertChildren, h1] at h
      obtain ⟨hr, he⟩ := h
      subst he
      obtain ⟨hcon, hperm⟩ := vt1 rfl
      exact Or.inr (Or.inl ⟨hr, hcon, e1, rfl, rfl, v1, vb1, hperm, vg1⟩)
    | false =>
      obtain ⟨he1, hnc1⟩ := vf1 rfl
      subst he1
      cases h2 : ins c2 point with
      | none => simp [insertChildren, h1, h2] at h
      | some p2 =>
        obtain ⟨rb2, e2⟩ := p2
        obtain ⟨v2, vb2, vf2, vt2, vg2⟩ := IH c2 point rb2 e2 w2 h2
        cases rb2 with
        | true =>
          simp [insertChildren, h1, h2] at h
          obtain ⟨hr, he⟩ := h
          subst he
          obtain ⟨hcon, hperm⟩ := vt2 rfl
          exact Or.inr (Or.inr (Or.inl
            ⟨hr, hnc1, hcon, e2, rfl, rfl, v2, vb2, hperm, vg2⟩))
        | false =>
          obtain ⟨he2, hnc2⟩ := vf2 rfl
          subst he2
          cases h3 : ins c3 point with
          | none => simp [insertChildren, h1, h2, h3] at h
          | some p3 =>
            obtain ⟨rb3, e3⟩ := p3
            obtain ⟨v3, vb3, vf3, vt3, vg3⟩ := IH c3 point rb3 e3 w3 h3
            cases rb3 with
            | true =>
              simp [insertChildren, h1, h2, h3] at h
              obtain ⟨hr, he⟩ := h
              subst he
              obtain ⟨hcon, hperm⟩ := vt3 rfl
              exact Or.inr (Or.inr (Or.inr (Or.inl
                ⟨hr, hnc1, hnc2, hcon, e3, rfl, rfl, v3, vb3, hperm, vg3⟩)))
            | false =>
              obtain ⟨he3, hnc3⟩ := vf3 rfl
              subst he3
              cases h4 : ins c4 point with
              | none => simp [insertChildren, h1, h2, h3, h4] at h
              | some p4 =>
                obtain ⟨rb4, e4⟩ := p4
                obtain ⟨v4, vb4, vf4, vt4, vg4⟩ := IH c4 point rb4 e4 w4 h4
                cases rb4 with
                | true =>
                  simp [insertChildren, h1, h2, h3, h4] at h
                  obtain ⟨hr, he⟩ := h
                  subst he
                  obtain ⟨hcon, hperm⟩ := vt4 rfl
                  exact Or.inr (Or.inr (Or.inr (Or.inr
                    ⟨hr, hnc1, hnc2, hnc3, hcon, e4, rfl, rfl, v4, vb4,
                      hperm, vg4⟩)))
                | false =>
                  obtain ⟨he4, hnc4⟩ := vf4 rfl
                  subst he4
                  simp [insertChildren, h1, h2, h3, h4] at h
                  obtain ⟨hr, he⟩ := h
                  subst he
                  exact Or.inl ⟨hr, rfl, hnc1, hnc2, hnc3, hnc4⟩

theorem distributePoints_spec {ins : Quadtree → Point → Option (Bool × Quadtree)}
    (IH : InsOk ins) :
    ∀ (ps : List Point) (c1 c2 c3 c4 d1 d2 d3 d4 : Quadtree),
      WF c1 = true → WF c2 = true → WF c3 = true → WF c4 = true →
      (∀ p ∈ ps, contains c1.boundary p = true ∨ contains c2.boundary p = true ∨
        contains c3.boundary p = true ∨ contains c4.boundary p = true) →
      distributePoints ins ps (c1, c2, c3, c4) = some (d1, d2, d3, d4) →
      WF d1 = true ∧ WF d2 = true ∧ WF d3 = true ∧ WF d4 = true ∧
      d1.boundary = c1.boundary ∧ d2.boundary = c2.boundary ∧
      d3.boundary = c3.boundary ∧ d4.boundary = c4.boundary ∧
      (d1.elems ++ d2.elems ++ d3.elems ++ d4.elems).Perm
        (ps ++ (c1.elems ++ c2.elems ++ c3.elems ++ c4.elems)) := by
  intro ps
  induction ps with
  | nil =>
    intro c1 c2 c3 c4 d1 d2 d3 d4 w1 w2 w3 w4 hcov h
    simp [distributePoints] at h
    obtain ⟨e1, e2, e3, e4⟩ := h
    subst e1; subst e2; subst e3; subst e4
    exact ⟨w1, w2, w3, w4, rfl, rfl, rfl, rfl, by simp⟩
  | cons p ps ih =>
    intro c1 c2 c3 c4 d1 d2 d3 d4 w1 w2 w3 w4 hcov h
    simp only [distributePoints] at h
    cases ht : tryFour ins (c1, c2, c3, c4) p with
    | none => rw [ht] at h; exact Option.noConfusion h
    | some rs =>
      obtain ⟨rb, m1, m2, m3, m4⟩ := rs
      rw [ht] at h
      replace h : distributePoints ins ps (m1, m2, m3, m4) = some (d1, d2, d3, d4) := h
      rcases tryFour_spec IH w1 w2 w3 w4 ht with
        ⟨_, e1, e2, e3, e4, n1, n2, n3, n4⟩ |
        ⟨_, hcon, _, v1, vb1, hperm, _, e2, e3, e4⟩ |
        ⟨_, _, e1, hcon, _, v2, vb2, hperm, _, e3, e4⟩ |
        ⟨_, _, e1, _, e2, hcon, _, v3, vb3, hperm, _, e4⟩ |
        ⟨_, _, e1, _, e2, _, e3, hcon, _, v4, vb4, hperm, _⟩
      · rcases hcov p (List.mem_cons_self p ps) with hc | hc | hc | hc
        · rw [hc] at n1; exact Bool.noConfusion n1
        · rw [hc] at n2; exact Bool.noConfusion n2
        · rw [hc] at n3; exact Bool.noConfusion n3
        · rw [hc] at n4; exact Bool.noConfusion n4
      · subst e2; subst e3; subst e4
        obtain ⟨g1, g2, g3, g4, gb1, gb2, gb3, gb4, gperm⟩ :=
          ih m1 m2 m3 m4 d1 d2 d3 d4 v1 w2 w3 w4
            (by
              intro q hq
              rw [vb1]
              exact hcov q (List.mem_cons_of_mem p hq)) h
        refine ⟨g1, g2, g3, g4, gb1.trans vb1, gb2, gb3, gb4, ?_⟩
        rw [← Multiset.coe_eq_coe] at gperm hperm ⊢
        simp only [← Multiset.coe_add, ← Multiset.cons_coe] at gperm hperm ⊢
        rw [gperm, hperm]
        simp only [← Multiset.singleton_add]
        abel
      · subst e1; subst e3; subst e4
        obtain ⟨g1, g2, g3, g4, gb1, gb2, gb3, gb4, gperm⟩ :=
          ih m1 m2 m3 m4 d1 d2 d3 d4 w1 v2 w3 w4
            (by
              intro q hq
              rw [vb2]
              exact hcov q (List.mem_cons_of_mem p hq)) h
        refine ⟨g1, g2, g3, g4, gb1, gb2.trans vb2, gb3, gb4, ?_⟩
        rw [← Multiset.coe_eq_coe] at gperm hperm ⊢
        simp only [← Multiset.coe_add, ← Multiset.cons_coe] at gperm hperm ⊢
        rw [gperm, hperm]
        simp only [← Multiset.singleton_add]
        abel
      · subst e1; subst e2; subst e4
        obtain ⟨g1, g2, g3, g4, gb1, gb2, gb3, gb4, gperm⟩ :=
          ih m1 m2 m3 m4 d1 d2 d3 d4 w1 w2 v3 w4
            (by
              intro q hq
              rw [vb3]
              exact hcov q (List.mem_cons_of_mem p hq)) h
        refine ⟨g1, g2, g3, g4, gb1, gb2, gb3.trans vb3, gb4, ?_⟩
        rw [← Multiset.coe_eq_coe] at gperm hperm ⊢
        simp only [← Multiset.coe_add, ← Multiset.cons_coe] at gperm hperm ⊢
        rw [gperm, hperm]
        simp only [← Multiset.singleton_add]
        abel
      · subst e1; subst e2; subst e3
        obtain ⟨g1, g2, g3, g4, gb1, gb2, gb3, gb4, gperm⟩ :=
          ih m1 m2 m3 m4 d1 d2 d3 d4 w1 w2 w3 v4
            (by
              intro q hq
              rw [vb4]
              exact hcov q (List.mem_cons_of_mem p hq)) h
        refine ⟨g1, g2, g3, g4, gb1, gb2, gb3, gb4.trans vb4, ?_⟩
        rw [← Multiset.coe_eq_coe] at gperm hperm ⊢
        simp only [← Multiset.coe_add, ← Multiset.cons_coe] at gperm hperm ⊢
        rw [gperm, hperm]
        simp only [← Multiset.singleton_add]
        abel

theorem subdivide_spec {ins : Quadtree → Point → Option (Bool × Quadtree)}
    (IH : InsOk ins) {b : Boundary} {pts : List Point} {u : Quadtree}
    (hw : WF (Quadtree.mk b pts none none none none) = true) (hne : pts ≠ [])
    (h : subdivide ins (Quadtree.mk b pts none none none none) = some u) :
    ∃ d1 d2 d3 d4, u = Quadtree.mk b [] (some d1) (some d2) (some d3) (some d4) ∧
      WF u = true ∧ u.elems.Perm pts := by
  obtain ⟨hlen, hall⟩ := WF_leaf_elim hw
  obtain ⟨q, hq⟩ := List.exists_mem_of_ne_nil pts hne
  have hqb := hall q hq
  rw [contains_iff] at hqb
  have hx : b.x1 ≤ b.x2 := le_trans hqb.1 hqb.2.1
  have hy : b.y1 ≤ b.y2 := le_trans hqb.2.2.1 hqb.2.2.2
  simp only [subdivide] at h
  cases hd : distributePoints ins pts
      (Quadtree.mk (topLeftB b) [] none none none none,
       Quadtree.mk (bottomLeftB b) [] none none none none,
       Quadtree.mk (topRightB b) [] none none none none,
       Quadtree.mk (bottomRightB b) [] none none none none) with
  | none => rw [hd] at h; exact Option.noConfusion h
  | some ds =>
    obtain ⟨d1, d2, d3, d4⟩ := ds
    rw [hd] at h
    replace h : u = Quadtree.mk b [] (some d1) (some d2) (some d3) (some d4) :=
      (Option.some_inj.1 h).symm
    have hwe : ∀ bq : Boundary, WF (Quadtree.mk bq [] none none none none) = true := by
      intro bq
      exact WF_leaf_intro (by simp [MAX_CAPACITY]) (by simp)
    obtain ⟨g1, g2, g3, g4, gb1, gb2, gb3, gb4, gperm⟩ :=
      distributePoints_spec IH pts _ _ _ _ d1 d2 d3 d4
        (hwe _) (hwe _) (hwe _) (hwe _)
        (by
          intro q2 hq2
          simpa using quad_cover b q2 (hall q2 hq2))
        hd
    simp only [boundary_mk] at gb1 gb2 gb3 gb4
    refine ⟨d1, d2, d3, d4, h, ?_, ?_⟩
    · rw [h]
      exact WF_inner_intro hx hy gb1 gb2 gb3 gb4 g1 g2 g3 g4
    · rw [h, elems_inner]
      simp only [elems_leaf, List.append_nil] at gperm
      simpa using gperm

theorem some_pair_inj {r v : Bool} {t' u : Quadtree} (h : some (v, u) = some (r, t')) :
    r = v ∧ t' = u := by
  rw [Option.some_inj] at h
  exact ⟨(congrArg Prod.fst h).symm, (congrArg Prod.snd h).symm⟩

theorem perm_update1 {x1 y1 a2 a3 a4 rest : List Point} {point : Point}
    (h1 : y1.Perm (point :: x1)) (h : (x1 ++ a2 ++ a3 ++ a4).Perm rest) :
    (y1 ++ a2 ++ a3 ++ a4).Perm (point :: rest) := by
  rw [← Multiset.coe_eq_coe] at h1 h ⊢
  simp only [← Multiset.coe_add, ← Multiset.cons_coe] at h1 h ⊢
  rw [h1, ← h]
  simp only [← Multiset.singleton_add]
  abel

theorem perm_update2 {x2 y2 a1 a3 a4 rest : List Point} {point : Point}
    (h2 : y2.Perm (point :: x2)) (h : (a1 ++ x2 ++ a3 ++ a4).Perm rest) :
    (a1 ++ y2 ++ a3 ++ a4).Perm (point :: rest) := by
  rw [← Multiset.coe_eq_coe] at h2 h ⊢
  simp only [← Multiset.coe_add, ← Multiset.cons_coe] at h2 h ⊢
  rw [h2, ← h]
  simp only [← Multiset.singleton_add]
  abel

theorem perm_update3 {x3 y3 a1 a2 a4 rest : List Point} {point : Point}
    (h3 : y3.Perm (point :: x3)) (h : (a1 ++ a2 ++ x3 ++ a4).Perm rest) :
    (a1 ++ a2 ++ y3 ++ a4).Perm (point :: rest) := by
  rw [← Multiset.coe_eq_coe] at h3 h ⊢
  simp only [← Multiset.coe_add, ← Multiset.cons_coe] at h3 h ⊢
  rw [h3, ← h]
  simp only [← Multiset.singleton_add]
  abel

theorem perm_update4 {x4 y4 a1 a2 a3 rest : List Point} {point : Point}
    (h4 : y4.Perm (point :: x4)) (h : (a1 ++ a2 ++ a3 ++ x4).Perm rest) :
    (a1 ++ a2 ++ a3 ++ y4).Perm (point :: rest) := by
  rw [← Multiset.coe_eq_coe] at h4 h ⊢
  simp only [← Multiset.coe_add, ← Multiset.cons_coe] at h4 h ⊢
  rw [h4, ← h]
  simp only [← Multiset.singleton_add]
  abel

theorem insOk_zero : InsOk (fun u q => insert 0 u q) := by
  intro t point r t' _ h
  exact Option.noConfusion h

theorem insOk_step (fuel : Nat) (IH : InsOk (fun u q => insert fuel u q)) :
    InsOk (fun u q => insert (fuel+1) u q) := by
  intro t point r t' hw h
  cases t with
  | mk b pts tl bl tr br =>
    replace h : insert (fuel+1) (Quadtree.mk b pts tl bl tr br) point = some (r, t') := h
    cases hc : contains b point with
    | false =>
      rw [insert_succ_outside fuel pts tl bl tr br hc] at h
      obtain ⟨hr, ht'⟩ := some_pair_inj h
      subst hr; subst ht'
      exact ⟨hw, rfl, fun _ => ⟨rfl, hc⟩, fun hrt => Bool.noConfusion hrt, Grows_refl _⟩
    | true =>
      cases tl with
      | none =>
        obtain ⟨e2, e3, e4⟩ := WF_tl_none hw
        subst e2; subst e3; subst e4
        by_cases hlen : pts.length < MAX_CAPACITY
        · rw [insert_succ_room fuel none none none hc hlen] at h
          obtain ⟨hr, ht'⟩ := some_pair_inj h
          subst hr; subst ht'
          obtain ⟨hl, ha⟩ := WF_leaf_elim hw
          refine ⟨?_, rfl, fun hrf => Bool.noConfusion hrf, fun _ => ⟨hc, ?_⟩, ?_⟩
          · refine WF_leaf_intro ?_ ?_
            · simpa using hlen
            · intro p hp
              rcases List.mem_append.1 hp with hp | hp
              · exact ha p hp
              · rw [List.mem_singleton.1 hp]; exact hc
          · rw [elems_leaf, elems_leaf]
            exact List.perm_append_singleton point pts
          · rw [Grows_leaf_iff]; rfl
        · rw [insert_succ_full_leaf fuel none none none hc hlen] at h
          cases hs : subdivide (fun u q => insert fuel u q)
              (Quadtree.mk b pts none none none none) with
          | none => rw [hs] at h; exact Option.noConfusion h
          | some u =>
            rw [hs] at h
            replace h : insertChildren (fun u q => insert fuel u q) u point =
              some (r, t') := h
            have hne : pts ≠ [] := by
              intro he
              subst he
              simp [MAX_CAPACITY] at hlen
            obtain ⟨d1, d2, d3, d4, hu, hwu, hup⟩ := subdivide_spec IH hw hne hs
            subst hu
            obtain ⟨c2, c3, c4, e2, e3, e4, _, hx, hy, hb1, hb2, hb3, hb4,
              w1, w2, w3, w4⟩ := WF_inner_elim hwu
            rw [Option.some_inj] at e2 e3 e4
            subst e2; subst e3; subst e4
            rw [elems_inner] at hup
            simp only [List.nil_append] at hup
            rcases insertChildren_spec IH w1 w2 w3 w4 h with
              ⟨_, _, n1, n2, n3, n4⟩ |
              ⟨hr, hcon, d1', hins, ht', wd, bd, pd, gd⟩ |
              ⟨hr, _, hcon, d2', hins, ht', wd, bd, pd, gd⟩ |
              ⟨hr, _, _, hcon, d3', hins, ht', wd, bd, pd, gd⟩ |
              ⟨hr, _, _, _, hcon, d4', hins, ht', wd, bd, pd, gd⟩
            · exfalso
              rcases quad_cover b point hc with hq | hq | hq | hq
              · rw [← hb1] at hq; rw [hq] at n1; exact Bool.noConfusion n1
              · rw [← hb2] at hq; rw [hq] at n2; exact Bool.noConfusion n2
              · rw [← hb3] at hq; rw [hq] at n3; exact Bool.noConfusion n3
              · rw [← hb4] at hq; rw [hq] at n4; exact Bool.noConfusion n4
            · subst ht'; subst hr
              refine ⟨WF_inner_intro hx hy (bd.trans hb1) hb2 hb3 hb4 wd w2 w3 w4,
                rfl, fun hrf => Bool.noConfusion hrf, fun _ => ⟨hc, ?_⟩, ?_⟩
              · rw [elems_inner, elems_leaf]
                simp only [List.nil_append]
                exact perm_update1 pd hup
              · rw [Grows_leaf_iff]; rfl
            · subst ht'; subst hr
              refine ⟨WF_inner_intro hx hy hb1 (bd.trans hb2) hb3 hb4 w1 wd w3 w4,
                rfl, fun hrf => Bool.noConfusion hrf, fun _ => ⟨hc, ?_⟩, ?_⟩
              · rw [elems_inner, elems_leaf]
                simp only [List.nil_append]
                exact perm_update2 pd hup
              · rw [Grows_leaf_iff]; rfl
            · subst ht'; subst hr
              refine ⟨WF_inner_intro hx hy hb1 hb2 (bd.trans hb3) hb4 w1 w2 wd w4,
                rfl, fun hrf => Bool.noConfusion hrf, fun _ => ⟨hc, ?_⟩, ?_⟩
              · rw [elems_inner, elems_leaf]
                simp only [List.nil_append]
                exact perm_update3 pd hup
              · rw [Grows_leaf_iff]; rfl
            · subst ht'; subst hr
              refine ⟨WF_inner_intro hx hy hb1 hb2 hb3 (bd.trans hb4) w1 w2 w3 wd,
                rfl, fun hrf => Bool.noConfusion hrf, fun _ => ⟨hc, ?_⟩, ?_⟩
              · rw [elems_inner, elems_leaf]
                simp only [List.nil_append]
                exact perm_update4 pd hup
              · rw [Grows_leaf_iff]; rfl
      | some c1 =>
        obtain ⟨c2, c3, c4, e2, e3, e4, hpts, hx, hy, hb1, hb2, hb3, hb4,
          w1, w2, w3, w4⟩ := WF_inner_elim hw
        subst e2; subst e3; subst e4; subst hpts
        rw [insert_succ_inner fuel (some c2) (some c3) (some c4) hc] at h
        rcases insertChildren_spec IH w1 w2 w3 w4 h with
          ⟨_, _, n1, n2, n3, n4⟩ |
          ⟨hr, hcon, d1', hins, ht', wd, bd, pd, gd⟩ |
          ⟨hr, _, hcon, d2', hins, ht', wd, bd, pd, gd⟩ |
          ⟨hr, _, _, hcon, d3', hins, ht', wd, bd, pd, gd⟩ |
          ⟨hr, _, _, _, hcon, d4', hins, ht', wd, bd, pd, gd⟩
        · exfalso
          rcases quad_cover b point hc with hq | hq | hq | hq
          · rw [← hb1] at hq; rw [hq] at n1; exact Bool.noConfusion n1
          · rw [← hb2] at hq; rw [hq] at n2; exact Bool.noConfusion n2
          · rw [← hb3] at hq; rw [hq] at n3; exact Bool.noConfusion n3
          · rw [← hb4] at hq; rw [hq] at n4; exact Bool.noConfusion n4
        · subst ht'; subst hr
          refine ⟨WF_inner_intro hx hy (bd.trans hb1) hb2 hb3 hb4 wd w2 w3 w4,
            rfl, fun hrf => Bool.noConfusion hrf, fun _ => ⟨hc, ?_⟩, ?_⟩
          · rw [elems_inner, elems_inner]
            simp only [List.nil_append]
            exact perm_update1 pd (List.Perm.refl _)
          · rw [Grows_inner_iff]
            exact ⟨rfl, ⟨d1', rfl, gd⟩, ⟨c2, rfl, Grows_refl c2⟩,
              ⟨c3, rfl, Grows_refl c3⟩, ⟨c4, rfl, Grows_refl c4⟩⟩
        · subst ht'; subst hr
          refine ⟨WF_inner_intro hx hy hb1 (bd.trans hb2) hb3 hb4 w1 wd w3 w4,
            rfl, fun hrf => Bool.noConfusion hrf, fun _ => ⟨hc, ?_⟩, ?_⟩
          · rw [elems_inner, elems_inner]
            simp only [List.nil_append]
            exact perm_update2 pd (List.Perm.refl _)
          · rw [Grows_inner_iff]
            exact ⟨rfl, ⟨c1, rfl, Grows_refl c1⟩, ⟨d2', rfl, gd⟩,
              ⟨c3, rfl, Grows_refl c3⟩, ⟨c4, rfl, Grows_refl c4⟩⟩
        · subst ht'; subst hr
          refine ⟨WF_inner_intro hx hy hb1 hb2 (bd.trans hb3) hb4 w1 w2 wd w4,
            rfl, fun hrf => Bool.noConfusion hrf, fun _ => ⟨hc, ?_⟩, ?_⟩
          · rw [elems_inner, elems_inner]
            simp only [List.nil_append]
            exact perm_update3 pd (List.Perm.refl _)
          · rw [Grows_inner_iff]
            exact ⟨rfl, ⟨c1, rfl, Grows_refl c1⟩, ⟨c2, rfl, Grows_refl c2⟩,
              ⟨d3', rfl, gd⟩, ⟨c4, rfl, Grows_refl c4⟩⟩
        · subst ht'; subst hr
          refine ⟨WF_inner_intro hx hy hb1 hb2 hb3 (bd.trans hb4) w1 w2 w3 wd,
            rfl, fun hrf => Bool.noConfusion hrf, fun _ => ⟨hc, ?_⟩, ?_⟩
          · rw [elems_inner, elems_inner]
            simp only [List.nil_append]
            exact perm_update4 pd (List.Perm.refl _)
          · rw [Grows_inner_iff]
            exact ⟨rfl, ⟨c1, rfl, Grows_refl c1⟩, ⟨c2, rfl, Grows_refl c2⟩,
              ⟨c3, rfl, Grows_refl c3⟩, ⟨d4', rfl, gd⟩⟩

/-- Every insert call at any fuel satisfies the insert specification. -/
theorem insert_ok : ∀ fuel : Nat, InsOk (fun u q => insert fuel u q) := by
  intro fuel
  induction fuel with
  | zero => exact insOk_zero
  | succ n ih => exact insOk_step n ih

theorem search_not_intersects {b : Boundary} {Q : Boundary} (pts : List Point)
    (tl bl tr br : Option Quadtree) (hi : intersects b Q = false) :
    search (Quadtree.mk b pts tl bl tr br) Q = some [] := by
  rw [search]
  simp [hi]

theorem search_leaf {b : Boundary} {Q : Boundary} (pts : List Point)
    (bl tr br : Option Quadtree) (hi : intersects b Q = true) :
    search (Quadtree.mk b pts none bl tr br) Q =
      some (pts.filter (fun point => contains Q point)) := by
  rw [search]
  simp [hi]

theorem search_inner {b : Boundary} {Q : Boundary} (pts : List Point)
    (c1 c2 c3 c4 : Quadtree) {l1 l2 l3 l4 : List Point}
    (hi : intersects b Q = true)
    (s1 : search c1 Q = some l1) (s2 : search c2 Q = some l2)
    (s3 : search c3 Q = some l3) (s4 : search c4 Q = some l4) :
    search (Quadtree.mk b pts (some c1) (some c2) (some c3) (some c4)) Q =
      some (l1 ++ l2 ++ l3 ++ l4) := by
  rw [search]
  simp [hi, searchO_some, s1, s2, s3, s4]

/-- Every tree built by create_quad_tree and insert calls is well formed,
keeps the boundary it was created with, and stores exactly the points whose
insertion returned true. -/
theorem built_spec {b : Boundary} {ps : List Point} {t : Quadtree} (h : Built b ps t) :
    WF t = true ∧ t.boundary = b ∧ t.elems.Perm ps := by
  induction h with
  | nil =>
    refine ⟨WF_leaf_intro ?_ ?_, rfl, ?_⟩
    · simp [MAX_CAPACITY]
    · simp
    · rw [create_quad_tree, elems_leaf]
  | ins_true fuel point t' hb hins ih =>
    obtain ⟨hw, hbd, hp⟩ := ih
    obtain ⟨hw', hbd', _, htc, _⟩ := insert_ok fuel _ point true t' hw hins
    refine ⟨hw', hbd'.trans hbd, ?_⟩
    exact ((htc rfl).2.trans (hp.cons point)).trans
      (List.perm_append_singleton point _).symm
  | ins_false fuel point t' hb hins ih =>
    obtain ⟨hw, hbd, hp⟩ := ih
    obtain ⟨_, _, hf, _, _⟩ := insert_ok fuel _ point false t' hw hins
    rw [(hf rfl).1]
    exact ⟨hw, hbd, hp⟩

/-- On a well formed tree, search returns a result that is a permutation of
the stored points lying inside the query boundary. -/
theorem search_spec : ∀ t : Quadtree, WF t = true → ∀ Q : Boundary,
    ∃ l, search t Q = some l ∧ l.Perm (t.elems.filter (fun p => contains Q p)) := by
  intro t
  induction t using quadtree_ind with
  | h b pts tl bl tr br ih1 ih2 ih3 ih4 =>
    intro hw Q
    cases hi : intersects b Q with
    | false =>
      refine ⟨[], search_not_intersects pts tl bl tr br hi, ?_⟩
      have hnone : ∀ p ∈ (Quadtree.mk b pts tl bl tr br).elems,
          ¬ (contains Q p = true) := by
        intro p hp hq
        have hcb := mem_elems_contains _ hw p hp
        rw [contains_both_intersects b Q p hcb hq] at hi
        exact Bool.noConfusion hi
      rw [List.filter_eq_nil_iff.2 hnone]
    | true =>
      cases tl with
      | none =>
        obtain ⟨e2, e3, e4⟩ := WF_tl_none hw
        subst e2; subst e3; subst e4
        refine ⟨pts.filter (fun p => contains Q p), search_leaf pts none none none hi, ?_⟩
        rw [elems_leaf]
      | some c1 =>
        obtain ⟨c2, c3, c4, e2, e3, e4, hpts, _, _, _, _, _, _,
          w1, w2, w3, w4⟩ := WF_inner_elim hw
        subst e2; subst e3; subst e4; subst hpts
        obtain ⟨l1, s1, p1⟩ := ih1 c1 rfl w1 Q
        obtain ⟨l2, s2, p2⟩ := ih2 c2 rfl w2 Q
        obtain ⟨l3, s3, p3⟩ := ih3 c3 rfl w3 Q
        obtain ⟨l4, s4, p4⟩ := ih4 c4 rfl w4 Q
        refine ⟨l1 ++ l2 ++ l3 ++ l4, search_inner [] c1 c2 c3 c4 hi s1 s2 s3 s4, ?_⟩
        rw [elems_inner]
        simp only [List.nil_append, List.filter_append]
        exact ((p1.append p2).append p3).append p4

theorem Uniform_tl_none {b : Boundary} {pts : List Point} {bl tr br : Option Quadtree}
    (h : Uniform (Quadtree.mk b pts none bl tr br) = true) :
    bl = none ∧ tr = none ∧ br = none := by
  cases bl <;> cases tr <;> cases br <;> simp_all [Uniform]

theorem Uniform_inner_elim {b : Boundary} {pts : List Point} {c1 : Quadtree}
    {bl tr br : Option Quadtree}
    (h : Uniform (Quadtree.mk b pts (some c1) bl tr br) = true) :
    ∃ c2 c3 c4, bl = some c2 ∧ tr = some c3 ∧ br = some c4 ∧
      Uniform c1 = true ∧ Uniform c2 = true ∧ Uniform c3 = true ∧ Uniform c4 = true := by
  cases bl with
  | none => simp [Uniform] at h
  | some c2 =>
    cases tr with
    | none => simp [Uniform] at h
    | some c3 =>
      cases br with
      | none => simp [Uniform] at h
      | some c4 =>
        refine ⟨c2, c3, c4, rfl, rfl, rfl, ?_⟩
        simp [Uniform] at h
        tauto

theorem RoomAll_tl_none {b : Boundary} {pts : List Point} {bl tr br : Option Quadtree}
    (h : RoomAll (Quadtree.mk b pts none bl tr br) = true) :
    bl = none ∧ tr = none ∧ br = none ∧ pts.length < MAX_CAPACITY := by
  cases bl <;> cases tr <;> cases br <;> simp_all [RoomAll]

theorem RoomAll_inner_elim {b : Boundary} {pts : List Point} {c1 : Quadtree}
    {bl tr br : Option Quadtree}
    (h : RoomAll (Quadtree.mk b pts (some c1) bl tr br) = true) :
    ∃ c2 c3 c4, bl = some c2 ∧ tr = some c3 ∧ br = some c4 ∧
      RoomAll c1 = true ∧ RoomAll c2 = true ∧ RoomAll c3 = true ∧ RoomAll c4 = true := by
  cases bl with
  | none => simp [RoomAll] at h
  | some c2 =>
    cases tr with
    | none => simp [RoomAll] at h
    | some c3 =>
      cases br with
      | none => simp [RoomAll] at h
      | some c4 =>
        refine ⟨c2, c3, c4, rfl, rfl, rfl, ?_⟩
        simp [RoomAll] at h
        tauto

theorem heightQ_children_lt (b : Boundary) (pts : List Point) (c1 c2 c3 c4 : Quadtree) :
    heightQ c1 < heightQ (Quadtree.mk b pts (some c1) (some c2) (some c3) (some c4)) ∧
    heightQ c2 < heightQ (Quadtree.mk b pts (some c1) (some c2) (some c3) (some c4)) ∧
    heightQ c3 < heightQ (Quadtree.mk b pts (some c1) (some c2) (some c3) (some c4)) ∧
    heightQ c4 < heightQ (Quadtree.mk b pts (some c1) (some c2) (some c3) (some c4)) := by
  simp [heightQ]

/-- Inserting into a tree whose leaves are all strictly below capacity (and
whose child fields are uniform) returns a value whenever the fuel exceeds
the tree height: no subdivision is triggered and the recursion bottoms out. -/
theorem insert_total_roomAll :
    ∀ (fuel : Nat) (t : Quadtree) (point : Point), RoomAll t = true →
      heightQ t < fuel → insert fuel t point ≠ none := by
  intro fuel
  induction fuel with
  | zero => intro t point _ hh; omega
  | succ fuel ih =>
    intro t point hr hh
    cases t with
    | mk b pts tl bl tr br =>
      cases hc : contains b point with
      | false => rw [insert_succ_outside fuel pts tl bl tr br hc]; simp
      | true =>
        cases tl with
        | none =>
          obtain ⟨e2, e3, e4, hlen⟩ := RoomAll_tl_none hr
          subst e2; subst e3; subst e4
          rw [insert_succ_room fuel none none none hc hlen]
          simp
        | some c1 =>
          obtain ⟨c2, c3, c4, e2, e3, e4, r1, r2, r3, r4⟩ := RoomAll_inner_elim hr
          subst e2; subst e3; subst e4
          rw [insert_succ_inner fuel (some c2) (some c3) (some c4) hc]
          obtain ⟨hh1, hh2, hh3, hh4⟩ := heightQ_children_lt b pts c1 c2 c3 c4
          have g1 := ih c1 point r1 (by omega)
          have g2 := ih c2 point r2 (by omega)
          have g3 := ih c3 point r3 (by omega)
          have g4 := ih c4 point r4 (by omega)
          cases h1 : insert fuel c1 point with
          | none => exact absurd h1 g1
          | some p1 =>
            obtain ⟨rb1, d1⟩ := p1
            cases rb1 with
            | true => simp [insertChildren, h1]
            | false =>
              cases h2 : insert fuel c2 point with
              | none => exact absurd h2 g2
              | some p2 =>
                obtain ⟨rb2, d2⟩ := p2
                cases rb2 with
                | true => simp [insertChildren, h1, h2]
                | false =>
                  cases h3 : insert fuel c3 point with
                  | none => exact absurd h3 g3
                  | some p3 =>
                    obtain ⟨rb3, d3⟩ := p3
                    cases rb3 with
                    | true => simp [insertChildren, h1, h2, h3]
                    | false =>
                      cases h4 : insert fuel c4 point with
                      | none => exact absurd h4 g4
                      | some p4 =>
                        obtain ⟨rb4, d4⟩ := p4
                        simp [insertChildren, h1, h2, h3, h4]

/-- On any tree with uniform child fields, a query rectangle with inverted
bounds returns the empty list: the pruning test may pass, but the final
containment filter rejects every point. -/
theorem search_inverted_aux :
    ∀ t : Quadtree, Uniform t = true → ∀ Q : Boundary,
      (Q.x2 < Q.x1 ∨ Q.y2 < Q.y1) → search t Q = some [] := by
  intro t
  induction t using quadtree_ind with
  | h b pts tl bl tr br ih1 ih2 ih3 ih4 =>
    intro hu Q hinv
    cases hi : intersects b Q with
    | false => exact search_not_intersects pts tl bl tr br hi
    | true =>
      cases tl with
      | none =>
        obtain ⟨e2, e3, e4⟩ := Uniform_tl_none hu
        subst e2; subst e3; subst e4
        rw [search_leaf pts none none none hi]
        rw [List.filter_eq_nil_iff.2 (fun p _ => by simp [inverted_contains_false Q p hinv])]
      | some c1 =>
        obtain ⟨c2, c3, c4, e2, e3, e4, u1, u2, u3, u4⟩ := Uniform_inner_elim hu
        subst e2; subst e3; subst e4
        rw [search_inner pts c1 c2 c3 c4 hi (ih1 c1 rfl u1 Q hinv) (ih2 c2 rfl u2 Q hinv)
          (ih3 c3 rfl u3 Q hinv) (ih4 c4 rfl u4 Q hinv)]
        simp

/-! ## The pathological duplicate case -/

/-- A rectangle with lower corner at the origin. -/
def originB (a c : ℚ) : Boundary := ⟨0, a, 0, c⟩

/-- A leaf at capacity whose buffered points are MAX_CAPACITY copies of the
origin: the pathological duplicate configuration. -/
def dupLeaf (a c : ℚ) : Quadtree :=
  Quadtree.mk (originB a c) (List.replicate MAX_CAPACITY ((0:ℚ), (0:ℚ)))
    none none none none

theorem contains_origin (a c : ℚ) (ha : 0 ≤ a) (hc : 0 ≤ c) :
    contains (originB a c) ((0:ℚ), (0:ℚ)) = true := by
  rw [contains_iff]
  refine ⟨le_refl 0, ha, le_refl 0, hc⟩

theorem contains_origin_tl (a c : ℚ) (ha : 0 ≤ a) (hc : 0 ≤ c) :
    contains (topLeftB (originB a c)) ((0:ℚ), (0:ℚ)) = true := by
  rw [contains_iff]
  simp only [topLeftB, originB, mid_x, mid_y]
  refine ⟨le_refl 0, by linarith, le_refl 0, by linarith⟩

theorem distribute_dup (a c : ℚ) (ha : 0 ≤ a) (hc : 0 ≤ c) :
    ∀ (m k fuel : Nat), 1 ≤ fuel → k + m ≤ MAX_CAPACITY →
    distributePoints (fun u q => insert fuel u q)
      (List.replicate m ((0:ℚ), (0:ℚ)))
      (Quadtree.mk (topLeftB (originB a c)) (List.replicate k ((0:ℚ), (0:ℚ)))
         none none none none,
       Quadtree.mk (bottomLeftB (originB a c)) [] none none none none,
       Quadtree.mk (topRightB (originB a c)) [] none none none none,
       Quadtree.mk (bottomRightB (originB a c)) [] none none none none) =
    some
      (Quadtree.mk (topLeftB (originB a c)) (List.replicate (k+m) ((0:ℚ), (0:ℚ)))
         none none none none,
       Quadtree.mk (bottomLeftB (originB a c)) [] none none none none,
       Quadtree.mk (topRightB (originB a c)) [] none none none none,
       Quadtree.mk (bottomRightB (originB a c)) [] none none none none) := by
  intro m
  induction m with
  | zero =>
    intro k fuel _ _
    simp [distributePoints]
  | succ m ih =>
    intro k fuel hf hkm
    obtain ⟨f, rfl⟩ : ∃ f, fuel = f + 1 := ⟨fuel - 1, by omega⟩
    have hk : k < MAX_CAPACITY := by omega
    have hlen : (List.replicate k ((0:ℚ), (0:ℚ))).length < MAX_CAPACITY := by
      simpa using hk
    have hins : insert (f+1) (Quadtree.mk (topLeftB (originB a c))
        (List.replicate k ((0:ℚ), (0:ℚ))) none none none none) ((0:ℚ), (0:ℚ)) =
        some (true, Quadtree.mk (topLeftB (originB a c))
          (List.replicate k ((0:ℚ), (0:ℚ)) ++ [((0:ℚ), (0:ℚ))]) none none none none) :=
      insert_succ_room f none none none (contains_origin_tl a c ha hc) hlen
    rw [List.replicate_succ]
    rw [distributePoints]
    have htf : tryFour (fun u q => insert (f+1) u q)
        (Quadtree.mk (topLeftB (originB a c)) (List.replicate k ((0:ℚ), (0:ℚ)))
           none none none none,
         Quadtree.mk (bottomLeftB (originB a c)) [] none none none none,
         Quadtree.mk (topRightB (originB a c)) [] none none none none,
         Quadtree.mk (bottomRightB (originB a c)) [] none none none none)
        ((0:ℚ), (0:ℚ)) =
        some (true,
          (Quadtree.mk (topLeftB (originB a c))
             (List.replicate k ((0:ℚ), (0:ℚ)) ++ [((0:ℚ), (0:ℚ))]) none none none none,
           Quadtree.mk (bottomLeftB (originB a c)) [] none none none none,
           Quadtree.mk (topRightB (originB a c)) [] none none none none,
           Quadtree.mk (bottomRightB (originB a c)) [] none none none none)) := by
      simp only [tryFour, hins, Option.some_bind]
      rfl
    rw [htf]
    rw [← List.replicate_succ' ]
    rw [show k + (m+1) = (k+1) + m from by omega]
    exact ih (k+1) (f+1) (by omega) (by omega)

theorem insert_dup_none :
    ∀ (fuel : Nat) (a c : ℚ), 0 ≤ a → 0 ≤ c →
      insert fuel (dupLeaf a c) ((0:ℚ), (0:ℚ)) = none := by
  intro fuel
  induction fuel with
  | zero => intro a c _ _; rfl
  | succ fuel ih =>
    intro a c ha hc
    have hlen : ¬ (List.replicate MAX_CAPACITY ((0:ℚ), (0:ℚ))).length < MAX_CAPACITY := by
      simp
    rw [dupLeaf, insert_succ_full_leaf fuel none none none
      (contains_origin a c ha hc) hlen]
    cases fuel with
    | zero =>
      have hsub : subdivide (fun u q => insert 0 u q)
          (Quadtree.mk (originB a c) (List.replicate MAX_CAPACITY ((0:ℚ), (0:ℚ)))
            none none none none) = none := by
        rw [subdivide]
        rw [show MAX_CAPACITY = 99 + 1 from rfl, List.replicate_succ]
        rw [distributePoints]
        have : tryFour (fun u q => insert 0 u q)
            (Quadtree.mk (topLeftB (originB a c)) [] none none none none,
             Quadtree.mk (bottomLeftB (originB a c)) [] none none none none,
             Quadtree.mk (topRightB (originB a c)) [] none none none none,
             Quadtree.mk (bottomRightB (originB a c)) [] none none none none)
            ((0:ℚ), (0:ℚ)) = none := by
          simp [tryFour, insert]
        rw [this]
        rfl
      rw [hsub]
      rfl
    | succ f =>
      have hfold := distribute_dup a c ha hc MAX_CAPACITY 0 (f+1) (by omega) (by omega)
      simp only [List.replicate_zero, Nat.zero_add] at hfold
      have hsub : subdivide (fun u q => insert (f+1) u q)
          (Quadtree.mk (originB a c) (List.replicate MAX_CAPACITY ((0:ℚ), (0:ℚ)))
            none none none none) =
          some (Quadtree.mk (originB a c) []
            (some (Quadtree.mk (topLeftB (originB a c))
              (List.replicate MAX_CAPACITY ((0:ℚ), (0:ℚ))) none none none none))
            (some (Quadtree.mk (bottomLeftB (originB a c)) [] none none none none))
            (some (Quadtree.mk (topRightB (originB a c)) [] none none none none))
            (some (Quadtree.mk (bottomRightB (originB a c)) [] none none none none))) := by
        rw [subdivide]
        rw [hfold]
        rfl
      rw [hsub]
      have htl : Quadtree.mk (topLeftB (originB a c))
          (List.replicate MAX_CAPACITY ((0:ℚ), (0:ℚ))) none none none none =
          dupLeaf ((0 + a) / 2) ((0 + c) / 2) := rfl
      have htl2 : dupLeaf ((0 + a) / 2) ((0 + c) / 2) = dupLeaf (a / 2) (c / 2) := by
        rw [zero_add, zero_add]
      have hnone := ih (a / 2) (c / 2) (by linarith) (by linarith)
      have hnone' : insert (f+1) (dupLeaf (a / 2) (c / 2)) (0 : ℚ × ℚ) = none := hnone
      have hic : insertChildren (fun u q => insert (f+1) u q)
          (Quadtree.mk (originB a c) []
            (some (Quadtree.mk (topLeftB (originB a c))
              (List.replicate MAX_CAPACITY ((0:ℚ), (0:ℚ))) none none none none))
            (some (Quadtree.mk (bottomLeftB (originB a c)) [] none none none none))
            (some (Quadtree.mk (topRightB (originB a c)) [] none none none none))
            (some (Quadtree.mk (bottomRightB (originB a c)) [] none none none none)))
          ((0:ℚ), (0:ℚ)) = none := by
        rw [htl, htl2]
        simp [insertChildren, hnone', hnone]
      exact hic

theorem WF_classify {t n : Quadtree} {path : List Dir} (hw : WF t = true)
    (hn : nodeAt t path = some n) :
    (allNone n = true ∧ n.points.length ≤ MAX_CAPACITY) ∨
    (allSome n = true ∧ n.points = []) := by
  have hwn := WF_nodeAt hw hn
  cases n with
  | mk b pts tl bl tr br =>
    cases tl with
    | none =>
      obtain ⟨e2, e3, e4⟩ := WF_tl_none hwn
      subst e2; subst e3; subst e4
      exact Or.inl ⟨by simp [allNone], by simpa using (WF_leaf_elim hwn).1⟩
    | some c1 =>
      obtain ⟨c2, c3, c4, e2, e3, e4, hpts, _⟩ := WF_inner_elim hwn
      subst e2; subst e3; subst e4
      exact Or.inr ⟨by simp [allSome], by simpa using hpts⟩

theorem quad_overlap_mid (b : Boundary) (p : Point) :
    ((contains (topLeftB b) p = true ∧ contains (bottomLeftB b) p = true) ∨
     (contains (topLeftB b) p = true ∧ contains (topRightB b) p = true) ∨
     (contains (topLeftB b) p = true ∧ contains (bottomRightB b) p = true) ∨
     (contains (bottomLeftB b) p = true ∧ contains (topRightB b) p = true) ∨
     (contains (bottomLeftB b) p = true ∧ contains (bottomRightB b) p = true) ∨
     (contains (topRightB b) p = true ∧ contains (bottomRightB b) p = true)) →
    p.1 = mid_x b ∨ p.2 = mid_y b := by
  intro h
  rcases h with ⟨h1, h2⟩ | ⟨h1, h2⟩ | ⟨h1, h2⟩ | ⟨h1, h2⟩ | ⟨h1, h2⟩ | ⟨h1, h2⟩ <;>
    rw [contains_iff] at h1 h2 <;>
    simp only [topLeftB, bottomLeftB, topRightB, bottomRightB] at h1 h2
  · exact Or.inr (le_antisymm h1.2.2.2 h2.2.2.1)
  · exact Or.inl (le_antisymm h1.2.1 h2.1)
  · exact Or.inl (le_antisymm h1.2.1 h2.1)
  · exact Or.inl (le_antisymm h1.2.1 h2.1)
  · exact Or.inl (le_antisymm h1.2.1 h2.1)
  · exact Or.inr (le_antisymm h1.2.2.2 h2.2.2.1)

theorem search_isSome_uniform :
    ∀ t : Quadtree, Uniform t = true → ∀ Q : Boundary, (search t Q).isSome = true := by
  intro t
  induction t using quadtree_ind with
  | h b pts tl bl tr br ih1 ih2 ih3 ih4 =>
    intro hu Q
    cases hi : intersects b Q with
    | false => rw [search_not_intersects pts tl bl tr br hi]; rfl
    | true =>
      cases tl with
      | none =>
        obtain ⟨e2, e3, e4⟩ := Uniform_tl_none hu
        subst e2; subst e3; subst e4
        rw [search_leaf pts none none none hi]
        rfl
      | some c1 =>
        obtain ⟨c2, c3, c4, e2, e3, e4, u1, u2, u3, u4⟩ := Uniform_inner_elim hu
        subst e2; subst e3; subst e4
        obtain ⟨l1, s1⟩ := Option.isSome_iff_exists.1 (ih1 c1 rfl u1 Q)
        obtain ⟨l2, s2⟩ := Option.isSome_iff_exists.1 (ih2 c2 rfl u2 Q)
        obtain ⟨l3, s3⟩ := Option.isSome_iff_exists.1 (ih3 c3 rfl u3 Q)
        obtain ⟨l4, s4⟩ := Option.isSome_iff_exists.1 (ih4 c4 rfl u4 Q)
        rw [search_inner pts c1 c2 c3 c4 hi s1 s2 s3 s4]
        rfl

theorem insert_outside (t : Quadtree) (point : Point) (fuel : Nat)
    (hc : contains t.boundary point = false) :
    insert (fuel+1) t point = some (false, t) := by
  cases t with
  | mk b pts tl bl tr br => exact insert_succ_outside fuel pts tl bl tr br hc

/-! ## Concrete reachable trees used as witnesses -/

theorem built_dup_aux :
    ∀ k : Nat, k ≤ MAX_CAPACITY →
      Built (originB 1 1) (List.replicate k ((0:ℚ), (0:ℚ)))
        (Quadtree.mk (originB 1 1) (List.replicate k ((0:ℚ), (0:ℚ))) none none none none) := by
  intro k
  induction k with
  | zero => intro _; exact Built.nil (originB 1 1)
  | succ k ih =>
    intro hk1
    have hb := ih (by omega)
    have hlen : (List.replicate k ((0:ℚ), (0:ℚ))).length < MAX_CAPACITY := by
      simpa using (show k < MAX_CAPACITY by omega)
    have hins : insert 1 (Quadtree.mk (originB 1 1)
        (List.replicate k ((0:ℚ), (0:ℚ))) none none none none) ((0:ℚ), (0:ℚ)) =
        some (true, Quadtree.mk (originB 1 1)
          (List.replicate k ((0:ℚ), (0:ℚ)) ++ [((0:ℚ), (0:ℚ))]) none none none none) :=
      insert_succ_room 0 none none none
        (contains_origin 1 1 (by norm_num) (by norm_num)) hlen
    have hstep := Built.ins_true 1 ((0:ℚ), (0:ℚ)) _ hb hins
    rw [← List.replicate_succ'] at hstep
    exact hstep

/-- The pathological tree: a root leaf at capacity holding MAX_CAPACITY
copies of the origin, reachable by MAX_CAPACITY insert calls. -/
theorem built_dup :
    Built (originB 1 1) (List.replicate MAX_CAPACITY ((0:ℚ), (0:ℚ))) (dupLeaf 1 1) :=
  built_dup_aux MAX_CAPACITY (le_refl MAX_CAPACITY)

/-- A subdivided tree obtained by inserting one more point into the full
leaf: the hundred origin copies move to the top left child and the new
point lands in the bottom right child. -/
def subdividedT : Quadtree :=
  Quadtree.mk (originB 1 1) []
    (some (Quadtree.mk (topLeftB (originB 1 1))
      (List.replicate MAX_CAPACITY ((0:ℚ), (0:ℚ))) none none none none))
    (some (Quadtree.mk (bottomLeftB (originB 1 1)) [] none none none none))
    (some (Quadtree.mk (topRightB (originB 1 1)) [] none none none none))
    (some (Quadtree.mk (bottomRightB (originB 1 1))
      [((3/4 : ℚ), (3/4 : ℚ))] none none none none))

theorem contains_qw_origin :
    contains (originB 1 1) ((3/4 : ℚ), (3/4 : ℚ)) = true := by
  rw [contains_iff]
  simp only [originB]
  norm_num

theorem contains_qw_tl :
    contains (topLeftB (originB 1 1)) ((3/4 : ℚ), (3/4 : ℚ)) = false := by
  cases hx : contains (topLeftB (originB 1 1)) ((3/4 : ℚ), (3/4 : ℚ))
  · rfl
  · rw [contains_iff] at hx
    simp only [topLeftB, originB, mid_x, mid_y] at hx
    norm_num at hx

theorem contains_qw_bl :
    contains (bottomLeftB (originB 1 1)) ((3/4 : ℚ), (3/4 : ℚ)) = false := by
  cases hx : contains (bottomLeftB (originB 1 1)) ((3/4 : ℚ), (3/4 : ℚ))
  · rfl
  · rw [contains_iff] at hx
    simp only [bottomLeftB, originB, mid_x, mid_y] at hx
    norm_num at hx

theorem contains_qw_tr :
    contains (topRightB (originB 1 1)) ((3/4 : ℚ), (3/4 : ℚ)) = false := by
  cases hx : contains (topRightB (originB 1 1)) ((3/4 : ℚ), (3/4 : ℚ))
  · rfl
  · rw [contains_iff] at hx
    simp only [topRightB, originB, mid_x, mid_y] at hx
    norm_num at hx

theorem contains_qw_br :
    contains (bottomRightB (originB 1 1)) ((3/4 : ℚ), (3/4 : ℚ)) = true := by
  rw [contains_iff]
  simp only [bottomRightB, originB, mid_x, mid_y]
  norm_num

theorem insert_into_dup :
    insert 2 (dupLeaf 1 1) ((3/4 : ℚ), (3/4 : ℚ)) = some (true, subdividedT) := by
  have hc := contains_qw_origin
  have hlen : ¬ (List.replicate MAX_CAPACITY ((0:ℚ), (0:ℚ))).length < MAX_CAPACITY := by
    simp
  rw [dupLeaf, insert_succ_full_leaf 1 none none none hc hlen]
  have hfold := distribute_dup 1 1 (by norm_num) (by norm_num) MAX_CAPACITY 0 1
    (le_refl 1) (by omega)
  simp only [List.replicate_zero, Nat.zero_add] at hfold
  have hsub : subdivide (fun u q => insert 1 u q)
      (Quadtree.mk (originB 1 1) (List.replicate MAX_CAPACITY ((0:ℚ), (0:ℚ)))
        none none none none) =
      some (Quadtree.mk (originB 1 1) []
        (some (Quadtree.mk (topLeftB (originB 1 1))
          (List.replicate MAX_CAPACITY ((0:ℚ), (0:ℚ))) none none none none))
        (some (Quadtree.mk (bottomLeftB (originB 1 1)) [] none none none none))
        (some (Quadtree.mk (topRightB (originB 1 1)) [] none none none none))
        (some (Quadtree.mk (bottomRightB (originB 1 1)) [] none none none none))) := by
    rw [subdivide]
    rw [hfold]
    rfl
  rw [hsub]
  have h1 : insert 1 (Quadtree.mk (topLeftB (originB 1 1))
      (List.replicate MAX_CAPACITY ((0:ℚ), (0:ℚ))) none none none none)
      ((3/4 : ℚ), (3/4 : ℚ)) =
      some (false, Quadtree.mk (topLeftB (originB 1 1))
        (List.replicate MAX_CAPACITY ((0:ℚ), (0:ℚ))) none none none none) :=
    insert_succ_outside 0 _ none none none none contains_qw_tl
  have h2 : insert 1 (Quadtree.mk (bottomLeftB (originB 1 1)) [] none none none none)
      ((3/4 : ℚ), (3/4 : ℚ)) =
      some (false, Quadtree.mk (bottomLeftB (originB 1 1)) [] none none none none) :=
    insert_succ_outside 0 [] none none none none contains_qw_bl
  have h3 : insert 1 (Quadtree.mk (topRightB (originB 1 1)) [] none none none none)
      ((3/4 : ℚ), (3/4 : ℚ)) =
      some (false, Quadtree.mk (topRightB (originB 1 1)) [] none none none none) :=
    insert_succ_outside 0 [] none none none none contains_qw_tr
  have h4 : insert 1 (Quadtree.mk (bottomRightB (originB 1 1)) [] none none none none)
      ((3/4 : ℚ), (3/4 : ℚ)) =
      some (true, Quadtree.mk (bottomRightB (originB 1 1))
        [((3/4 : ℚ), (3/4 : ℚ))] none none none none) :=
    insert_succ_room 0 none none none contains_qw_br (by simp [MAX_CAPACITY])
  have hic : insertChildren (fun u q => insert 1 u q)
      (Quadtree.mk (originB 1 1) []
        (some (Quadtree.mk (topLeftB (originB 1 1))
          (List.replicate MAX_CAPACITY ((0:ℚ), (0:ℚ))) none none none none))
        (some (Quadtree.mk (bottomLeftB (originB 1 1)) [] none none none none))
        (some (Quadtree.mk (topRightB (originB 1 1)) [] none none none none))
        (some (Quadtree.mk (bottomRightB (originB 1 1)) [] none none none none)))
      ((3/4 : ℚ), (3/4 : ℚ)) = some (true, subdividedT) := by
    simp only [Prod.mk_zero_zero] at h1
    simp [insertChildren, h1, h2, h3, h4, subdividedT]
  exact hic

/-- The subdivided witness tree is reachable. -/
theorem built_subdividedT :
    Built (originB 1 1)
      (List.replicate MAX_CAPACITY ((0:ℚ), (0:ℚ)) ++ [((3/4 : ℚ), (3/4 : ℚ))])
      subdividedT :=
  Built.ins_true 2 ((3/4 : ℚ), (3/4 : ℚ)) subdividedT built_dup insert_into_dup

/-- A one point tree, reachable by a single insert call. -/
theorem built_one :
    Built (originB 1 1) [((0:ℚ), (0:ℚ))]
      (Quadtree.mk (originB 1 1) [((0:ℚ), (0:ℚ))] none none none none) := by
  have hins : insert 1 (create_quad_tree (originB 1 1)) ((0:ℚ), (0:ℚ)) =
      some (true, Quadtree.mk (originB 1 1) [((0:ℚ), (0:ℚ))] none none none none) :=
    insert_succ_room 0 none none none (contains_origin 1 1 (by norm_num) (by norm_num))
      (by simp [MAX_CAPACITY])
  have hstep := Built.ins_true 1 ((0:ℚ), (0:ℚ)) _ (Built.nil (originB 1 1)) hins
  simpa using hstep

/-! ## The claims -/

/-- C1: for every tree obtained from create_quad_tree by a finite sequence
of insert calls and for every query boundary, search returns a result that
is a permutation of — hence equal as a set, ignoring order, to — the result
of naive_search applied to the sequence of inserted points with the same
boundary. -/
theorem search_equiv_naive_scan (b : Boundary) (ps : List Point) (t : Quadtree)
    (hb : Built b ps t) (Q : Boundary) :
    ∃ l, search t Q = some l ∧ l.Perm (naive_search ps Q) := by
  obtain ⟨hw, _, hp⟩ := built_spec hb
  obtain ⟨l, hs, hl⟩ := search_spec t hw Q
  exact ⟨l, hs, hl.trans (hp.filter _)⟩

/-- C1 witness: a concrete one point tree. -/
theorem search_equiv_naive_scan_witness :
    Built (originB 1 1) [((0:ℚ), (0:ℚ))]
      (Quadtree.mk (originB 1 1) [((0:ℚ), (0:ℚ))] none none none none) ∧
    (∃ l, search (Quadtree.mk (originB 1 1) [((0:ℚ), (0:ℚ))] none none none none)
        (originB 1 1) = some l ∧
      l.Perm (naive_search [((0:ℚ), (0:ℚ))] (originB 1 1))) :=
  ⟨built_one, search_equiv_naive_scan (originB 1 1) [((0:ℚ), (0:ℚ))] _ built_one (originB 1 1)⟩

/-- C3: an insert call answers false exactly when the point lies outside
the node boundary: every tree rejects an outside point immediately with the
tree unchanged, and on any well formed tree (the invariant satisfied by
every tree the program builds) a false result is equivalent to the point
being outside, so the fall-through path where a contained point is refused
by all four children never produces false. -/
theorem insert_false_iff_outside :
    (∀ (t : Quadtree) (point : Point) (fuel : Nat),
      contains t.boundary point = false → insert (fuel+1) t point = some (false, t)) ∧
    (∀ (t : Quadtree) (point : Point) (fuel : Nat) (r : Bool) (t' : Quadtree),
      WF t = true → insert fuel t point = some (r, t') →
      (r = false ↔ contains t.boundary point = false)) := by
  constructor
  · exact insert_outside
  · intro t point fuel r t' hw h
    obtain ⟨_, _, hf, ht, _⟩ := insert_ok fuel t point r t' hw h
    constructor
    · intro hr
      exact (hf hr).2
    · intro hcon
      cases r with
      | false => rfl
      | true =>
        rw [(ht rfl).1] at hcon
        exact Bool.noConfusion hcon

/-- C3 witness: a concrete rejection on an empty root. -/
theorem insert_false_iff_outside_witness :
    contains (create_quad_tree (originB 1 1)).boundary ((2:ℚ), (2:ℚ)) = false ∧
    insert 1 (create_quad_tree (originB 1 1)) ((2:ℚ), (2:ℚ)) =
      some (false, create_quad_tree (originB 1 1)) ∧
    WF (create_quad_tree (originB 1 1)) = true ∧
    (false = false ↔
      contains (create_quad_tree (originB 1 1)).boundary ((2:ℚ), (2:ℚ)) = false) := by
  have hc : contains (create_quad_tree (originB 1 1)).boundary ((2:ℚ), (2:ℚ)) = false := by
    decide
  have hw : WF (create_quad_tree (originB 1 1)) = true :=
    WF_leaf_intro (by simp [MAX_CAPACITY]) (by simp)
  have h1 := insert_false_iff_outside.1 (create_quad_tree (originB 1 1)) ((2:ℚ), (2:ℚ)) 0 hc
  exact ⟨hc, h1, hw,
    insert_false_iff_outside.2 (create_quad_tree (originB 1 1)) ((2:ℚ), (2:ℚ)) 1 false _ hw h1⟩

/-- C4: inserting a point outside the boundary of the root returns false
and returns the tree literally unchanged: no buffer, child field or
boundary of any node is modified. -/
theorem insert_outside_rejects_unchanged (t : Quadtree) (point : Point) (fuel : Nat)
    (hc : contains t.boundary point = false) :
    insert (fuel+1) t point = some (false, t) :=
  insert_outside t point fuel hc

/-- C4 witness: a concrete rejected insertion. -/
theorem insert_outside_rejects_unchanged_witness :
    contains (create_quad_tree (originB 1 1)).boundary ((2:ℚ), (2:ℚ)) = false ∧
    insert 1 (create_quad_tree (originB 1 1)) ((2:ℚ), (2:ℚ)) =
      some (false, create_quad_tree (originB 1 1)) := by
  have hc : contains (create_quad_tree (originB 1 1)).boundary ((2:ℚ), (2:ℚ)) = false := by
    decide
  exact ⟨hc, insert_outside_rejects_unchanged (create_quad_tree (originB 1 1)) _ 0 hc⟩

/-- C10: on every tree whose child fields are uniformly present or absent
(every tree the program builds) a query boundary with inverted bounds makes
search return the empty sequence, because no point satisfies the
containment test of an inverted rectangle. -/
theorem inverted_query_empty (t : Quadtree) (Q : Boundary) (hu : Uniform t = true)
    (hinv : Q.x1 > Q.x2 ∨ Q.y1 > Q.y2) : search t Q = some [] :=
  search_inverted_aux t hu Q hinv

/-- C10 witness: an inverted query on a concrete two level tree. -/
theorem inverted_query_empty_witness :
    Uniform (Quadtree.mk ⟨0, 2, 0, 2⟩ []
      (some (Quadtree.mk ⟨0, 1, 0, 1⟩ [((1:ℚ), (1:ℚ))] none none none none))
      (some (Quadtree.mk ⟨0, 1, 1, 2⟩ [] none none none none))
      (some (Quadtree.mk ⟨1, 2, 0, 1⟩ [] none none none none))
      (some (Quadtree.mk ⟨1, 2, 1, 2⟩ [] none none none none))) = true ∧
    ((Boundary.mk 3 1 0 1).x1 > (Boundary.mk 3 1 0 1).x2 ∨
      (Boundary.mk 3 1 0 1).y1 > (Boundary.mk 3 1 0 1).y2) ∧
    search (Quadtree.mk ⟨0, 2, 0, 2⟩ []
      (some (Quadtree.mk ⟨0, 1, 0, 1⟩ [((1:ℚ), (1:ℚ))] none none none none))
      (some (Quadtree.mk ⟨0, 1, 1, 2⟩ [] none none none none))
      (some (Quadtree.mk ⟨1, 2, 0, 1⟩ [] none none none none))
      (some (Quadtree.mk ⟨1, 2, 1, 2⟩ [] none none none none))) ⟨3, 1, 0, 1⟩ = some [] := by
  have hu : Uniform (Quadtree.mk ⟨0, 2, 0, 2⟩ []
      (some (Quadtree.mk ⟨0, 1, 0, 1⟩ [((1:ℚ), (1:ℚ))] none none none none))
      (some (Quadtree.mk ⟨0, 1, 1, 2⟩ [] none none none none))
      (some (Quadtree.mk ⟨1, 2, 0, 1⟩ [] none none none none))
      (some (Quadtree.mk ⟨1, 2, 1, 2⟩ [] none none none none))) = true := by
    simp [Uniform]
  have hinv : ((Boundary.mk 3 1 0 1).x1 > (Boundary.mk 3 1 0 1).x2 ∨
      (Boundary.mk 3 1 0 1).y1 > (Boundary.mk 3 1 0 1).y2) := by
    left
    norm_num
  exact ⟨hu, hinv, inverted_query_empty _ _ hu hinv⟩

/-- C2 counterexample: on a reachable tree that already stores the point,
a second successful insertion makes a search that contains the point return
it twice, not exactly once. -/
theorem duplicate_insert_counted_twice :
    Built (originB 1 1) [((0:ℚ), (0:ℚ))]
      (Quadtree.mk (originB 1 1) [((0:ℚ), (0:ℚ))] none none none none) ∧
    contains (originB 1 1) ((0:ℚ), (0:ℚ)) = true ∧
    insert 1 (Quadtree.mk (originB 1 1) [((0:ℚ), (0:ℚ))] none none none none)
      ((0:ℚ), (0:ℚ)) =
      some (true, Quadtree.mk (originB 1 1) [((0:ℚ), (0:ℚ)), ((0:ℚ), (0:ℚ))]
        none none none none) ∧
    search (Quadtree.mk (originB 1 1) [((0:ℚ), (0:ℚ)), ((0:ℚ), (0:ℚ))]
      none none none none) (originB 1 1) =
      some [((0:ℚ), (0:ℚ)), ((0:ℚ), (0:ℚ))] ∧
    ([((0:ℚ), (0:ℚ)), ((0:ℚ), (0:ℚ))].count ((0:ℚ), (0:ℚ)) ≠ 1) := by
  refine ⟨built_one, contains_origin 1 1 (by norm_num) (by norm_num), ?_, ?_, by decide⟩
  · exact insert_succ_room 0 none none none
      (contains_origin 1 1 (by norm_num) (by norm_num)) (by simp [MAX_CAPACITY])
  · rw [search_leaf [((0:ℚ), (0:ℚ)), ((0:ℚ), (0:ℚ))] none none none (by decide)]
    decide

/-- C2 (amended): for every reachable tree and every point inside the root
boundary, insert never answers false — whenever the call returns a value it
returns true — and after a successful insertion any search whose boundary
contains the point returns the point exactly one more time than the same
search did before the insertion. The original claim said the point appears
exactly once, which fails when the point was already stored, and it asserted
an unconditional true result, which the pathological duplicate divergence
makes unavailable. -/
theorem insert_inside_adds_exactly_once (b : Boundary) (ps : List Point) (t : Quadtree)
    (hb : Built b ps t) (point : Point) (hc : contains b point = true) :
    (∀ (fuel : Nat) (r : Bool) (t' : Quadtree),
      insert fuel t point = some (r, t') → r = true) ∧
    (∀ (fuel : Nat) (t' : Quadtree), insert fuel t point = some (true, t') →
      ∀ Q : Boundary, contains Q point = true →
        ∃ l l', search t Q = some l ∧ search t' Q = some l' ∧
          Multiset.count point (l' : Multiset Point) =
            Multiset.count point (l : Multiset Point) + 1) := by
  obtain ⟨hw, hbd, _⟩ := built_spec hb
  constructor
  · intro fuel r t' h
    obtain ⟨_, _, hf, _, _⟩ := insert_ok fuel t point r t' hw h
    cases r with
    | true => rfl
    | false =>
      have hcf := (hf rfl).2
      rw [hbd, hc] at hcf
      exact Bool.noConfusion hcf
  · intro fuel t' h Q hq
    obtain ⟨hw', _, _, ht, _⟩ := insert_ok fuel t point true t' hw h
    obtain ⟨_, hperm⟩ := ht rfl
    obtain ⟨l, hs, hl⟩ := search_spec t hw Q
    obtain ⟨l', hs', hl'⟩ := search_spec t' hw' Q
    refine ⟨l, l', hs, hs', ?_⟩
    have e4 : (point :: t.elems).filter (fun p => contains Q p) =
        point :: (t.elems.filter (fun p => contains Q p)) :=
      List.filter_cons_of_pos hq
    rw [Multiset.coe_eq_coe.2 hl', Multiset.coe_eq_coe.2 hl]
    rw [Multiset.coe_eq_coe.2 (hperm.filter (fun p => contains Q p))]
    rw [e4, ← Multiset.cons_coe, Multiset.count_cons_self]

/-- C2 witness: inserting the origin into an empty root. -/
theorem insert_inside_adds_exactly_once_witness :
    Built (originB 1 1) [] (create_quad_tree (originB 1 1)) ∧
    contains (originB 1 1) ((0:ℚ), (0:ℚ)) = true ∧
    ((∀ (fuel : Nat) (r : Bool) (t' : Quadtree),
      insert fuel (create_quad_tree (originB 1 1)) ((0:ℚ), (0:ℚ)) = some (r, t') →
        r = true) ∧
    (∀ (fuel : Nat) (t' : Quadtree),
      insert fuel (create_quad_tree (originB 1 1)) ((0:ℚ), (0:ℚ)) = some (true, t') →
      ∀ Q : Boundary, contains Q ((0:ℚ), (0:ℚ)) = true →
        ∃ l l', search (create_quad_tree (originB 1 1)) Q = some l ∧
          search t' Q = some l' ∧
          Multiset.count ((0:ℚ), (0:ℚ)) (l' : Multiset Point) =
            Multiset.count ((0:ℚ), (0:ℚ)) (l : Multiset Point) + 1)) := by
  have hc := contains_origin 1 1 (by norm_num) (by norm_num)
  exact ⟨Built.nil (originB 1 1), hc,
    insert_inside_adds_exactly_once (originB 1 1) [] (create_quad_tree (originB 1 1))
      (Built.nil (originB 1 1)) ((0:ℚ), (0:ℚ)) hc⟩

/-- C8 counterexample: a reachable tree holding MAX_CAPACITY copies of one
point is reachable by ordinary insert calls, and inserting that same point
once more never returns a value: the mutual recursion of insert and
subdivide does not bottom out for any fuel. -/
theorem insert_diverges_on_duplicates :
    Reachable (dupLeaf 1 1) ∧ ¬ InsertTerminates (dupLeaf 1 1) ((0:ℚ), (0:ℚ)) := by
  constructor
  · exact ⟨originB 1 1, List.replicate MAX_CAPACITY ((0:ℚ), (0:ℚ)), built_dup⟩
  · rintro ⟨fuel, r, t', h⟩
    rw [insert_dup_none fuel 1 1 (by norm_num) (by norm_num)] at h
    exact Option.noConfusion h

/-- C8 (amended): search always returns a result on every tree of the
program (any tree with uniform child fields); insert returns a result
whenever every leaf buffer is strictly below capacity and the fuel exceeds
the height of the tree, so no subdivision cascade arises; but insert need
not terminate in the pathological case of a tree already holding
MAX_CAPACITY points with coordinates identical to the inserted point. -/
theorem search_insert_terminate_normal_case :
    (∀ (t : Quadtree) (Q : Boundary), Uniform t = true → (search t Q).isSome = true) ∧
    (∀ (fuel : Nat) (t : Quadtree) (point : Point), RoomAll t = true →
      heightQ t < fuel → insert fuel t point ≠ none) :=
  ⟨fun t Q hu => search_isSome_uniform t hu Q, insert_total_roomAll⟩

/-- C8 witness: the empty root terminates both ways. -/
theorem search_insert_terminate_normal_case_witness :
    Uniform (create_quad_tree (originB 1 1)) = true ∧
    (search (create_quad_tree (originB 1 1)) (originB 1 1)).isSome = true ∧
    RoomAll (create_quad_tree (originB 1 1)) = true ∧
    heightQ (create_quad_tree (originB 1 1)) < 1 ∧
    insert 1 (create_quad_tree (originB 1 1)) ((0:ℚ), (0:ℚ)) ≠ none := by
  have hu : Uniform (create_quad_tree (originB 1 1)) = true := by
    simp [Uniform, create_quad_tree]
  have hm : RoomAll (create_quad_tree (originB 1 1)) = true := by
    simp [RoomAll, create_quad_tree, MAX_CAPACITY]
  have hh : heightQ (create_quad_tree (originB 1 1)) < 1 := by
    simp [heightQ, create_quad_tree]
  exact ⟨hu, search_insert_terminate_normal_case.1 (create_quad_tree (originB 1 1))
      (originB 1 1) hu, hm, hh,
    search_insert_terminate_normal_case.2 1 (create_quad_tree (originB 1 1))
      ((0:ℚ), (0:ℚ)) hm hh⟩

/-- C9: in every reachable tree, the four child fields of every node are
all absent or all present, so testing the top left child alone classifies a
node as leaf or inner, and search — whose child unwraps are modelled as
possible failure — always returns a result: no unwrap ever fails. -/
theorem children_uniform_unwraps_ok (t : Quadtree) (hr : Reachable t) :
    (∀ (path : List Dir) (n : Quadtree), nodeAt t path = some n →
      allNone n = true ∨ allSome n = true) ∧
    (∀ Q : Boundary, (search t Q).isSome = true) := by
  obtain ⟨b, ps, hb⟩ := hr
  obtain ⟨hw, _, _⟩ := built_spec hb
  constructor
  · intro path n hn
    rcases WF_classify hw hn with ⟨h1, _⟩ | ⟨h1, _⟩
    · exact Or.inl h1
    · exact Or.inr h1
  · intro Q
    obtain ⟨l, hs, _⟩ := search_spec t hw Q
    rw [hs]
    rfl

/-- C9 witness: the reachable subdivided tree. -/
theorem children_uniform_unwraps_ok_witness :
    Reachable subdividedT ∧
    ((∀ (path : List Dir) (n : Quadtree), nodeAt subdividedT path = some n →
      allNone n = true ∨ allSome n = true) ∧
    (∀ Q : Boundary, (search subdividedT Q).isSome = true)) := by
  have hr : Reachable subdividedT :=
    ⟨originB 1 1, List.replicate MAX_CAPACITY ((0:ℚ), (0:ℚ)) ++ [((3/4 : ℚ), (3/4 : ℚ))],
      built_subdividedT⟩
  exact ⟨hr, children_uniform_unwraps_ok subdividedT hr⟩

/-- C5: every node of a reachable tree is either a leaf (all four child
fields absent and at most MAX_CAPACITY buffered points) or an inner node
(all four present and an empty buffer); the invariant holds after every
insert because every reachable tree satisfies it, and an insert call never
turns an inner node back into a leaf: the node at any path that had
children still has children afterwards. -/
theorem leaf_or_internal_invariant (t : Quadtree) (hr : Reachable t) :
    (∀ (path : List Dir) (n : Quadtree), nodeAt t path = some n →
      (allNone n = true ∧ n.points.length ≤ MAX_CAPACITY) ∨
      (allSome n = true ∧ n.points = [])) ∧
    (∀ (fuel : Nat) (point : Point) (r : Bool) (t' : Quadtree)
      (path : List Dir) (n : Quadtree),
      insert fuel t point = some (r, t') → nodeAt t path = some n →
      n.top_left_child.isSome = true →
      ∃ n', nodeAt t' path = some n' ∧ n'.top_left_child.isSome = true) := by
  obtain ⟨b, ps, hb⟩ := hr
  obtain ⟨hw, _, _⟩ := built_spec hb
  constructor
  · intro path n hn
    exact WF_classify hw hn
  · intro fuel point r t' path n hins hn hi
    obtain ⟨_, _, _, _, hg⟩ := insert_ok fuel t point r t' hw hins
    exact Grows_nodeAt hw hg hn hi

/-- C5 witness: the reachable subdivided tree. -/
theorem leaf_or_internal_invariant_witness :
    Reachable subdividedT ∧
    ((∀ (path : List Dir) (n : Quadtree), nodeAt subdividedT path = some n →
      (allNone n = true ∧ n.points.length ≤ MAX_CAPACITY) ∨
      (allSome n = true ∧ n.points = [])) ∧
    (∀ (fuel : Nat) (point : Point) (r : Bool) (t' : Quadtree)
      (path : List Dir) (n : Quadtree),
      insert fuel subdividedT point = some (r, t') → nodeAt subdividedT path = some n →
      n.top_left_child.isSome = true →
      ∃ n', nodeAt t' path = some n' ∧ n'.top_left_child.isSome = true)) := by
  have hr : Reachable subdividedT :=
    ⟨originB 1 1, List.replicate MAX_CAPACITY ((0:ℚ), (0:ℚ)) ++ [((3/4 : ℚ), (3/4 : ℚ))],
      built_subdividedT⟩
  exact ⟨hr, leaf_or_internal_invariant subdividedT hr⟩

/-- C6: for every inner node of a reachable tree, the four children carry
exactly the quadrant boundaries obtained by splitting the parent rectangle
at the midpoint of each axis; every point of the parent lies in some child
(no gap), and a point lying in two different children lies on a midline, so
the children overlap at most on the shared partition edges. -/
theorem children_partition_parent (t : Quadtree) (hr : Reachable t)
    (path : List Dir) (n : Quadtree) (hn : nodeAt t path = some n)
    (c1 c2 c3 c4 : Quadtree)
    (h1 : n.top_left_child = some c1) (h2 : n.bottom_left_child = some c2)
    (h3 : n.top_right_child = some c3) (h4 : n.bottom_right_child = some c4) :
    (c1.boundary = topLeftB n.boundary ∧ c2.boundary = bottomLeftB n.boundary ∧
     c3.boundary = topRightB n.boundary ∧ c4.boundary = bottomRightB n.boundary) ∧
    (∀ point : Point, contains n.boundary point = true ↔
      (contains c1.boundary point = true ∨ contains c2.boundary point = true ∨
       contains c3.boundary point = true ∨ contains c4.boundary point = true)) ∧
    (∀ point : Point,
      ((contains c1.boundary point = true ∧ contains c2.boundary point = true) ∨
       (contains c1.boundary point = true ∧ contains c3.boundary point = true) ∨
       (contains c1.boundary point = true ∧ contains c4.boundary point = true) ∨
       (contains c2.boundary point = true ∧ contains c3.boundary point = true) ∨
       (contains c2.boundary point = true ∧ contains c4.boundary point = true) ∨
       (contains c3.boundary point = true ∧ contains c4.boundary point = true)) →
      point.1 = mid_x n.boundary ∨ point.2 = mid_y n.boundary) := by
  obtain ⟨b0, ps, hb⟩ := hr
  obtain ⟨hw, _, _⟩ := built_spec hb
  have hwn := WF_nodeAt hw hn
  cases n with
  | mk b pts tl bl tr br =>
    simp only [tl_mk, bl_mk, tr_mk, br_mk, boundary_mk] at h1 h2 h3 h4 ⊢
    subst h1; subst h2; subst h3; subst h4
    obtain ⟨c2', c3', c4', e2, e3, e4, _, hx, hy, hb1, hb2, hb3, hb4, _⟩ :=
      WF_inner_elim hwn
    rw [Option.some_inj] at e2 e3 e4
    subst e2; subst e3; subst e4
    refine ⟨⟨hb1, hb2, hb3, hb4⟩, ?_, ?_⟩
    · intro point
      constructor
      · intro hcp
        rw [hb1, hb2, hb3, hb4]
        exact quad_cover b point hcp
      · intro hor
        rw [hb1, hb2, hb3, hb4] at hor
        exact quad_subset b point hx hy hor
    · intro point hpair
      rw [hb1, hb2, hb3, hb4] at hpair
      exact quad_overlap_mid b point hpair

/-- C6 witness: the root of the reachable subdivided tree. -/
theorem children_partition_parent_witness :
    Reachable subdividedT ∧
    nodeAt subdividedT [] = some subdividedT ∧
    subdividedT.top_left_child = some (Quadtree.mk (topLeftB (originB 1 1))
      (List.replicate MAX_CAPACITY ((0:ℚ), (0:ℚ))) none none none none) ∧
    subdividedT.bottom_left_child =
      some (Quadtree.mk (bottomLeftB (originB 1 1)) [] none none none none) ∧
    subdividedT.top_right_child =
      some (Quadtree.mk (topRightB (originB 1 1)) [] none none none none) ∧
    subdividedT.bottom_right_child =
      some (Quadtree.mk (bottomRightB (originB 1 1))
        [((3/4 : ℚ), (3/4 : ℚ))] none none none none) ∧
    (((Quadtree.mk (topLeftB (originB 1 1))
        (List.replicate MAX_CAPACITY ((0:ℚ), (0:ℚ))) none none none none).boundary =
          topLeftB subdividedT.boundary ∧
      (Quadtree.mk (bottomLeftB (originB 1 1)) [] none none none none).boundary =
          bottomLeftB subdividedT.boundary ∧
      (Quadtree.mk (topRightB (originB 1 1)) [] none none none none).boundary =
          topRightB subdividedT.boundary ∧
      (Quadtree.mk (bottomRightB (originB 1 1))
        [((3/4 : ℚ), (3/4 : ℚ))] none none none none).boundary =
          bottomRightB subdividedT.boundary) ∧
    (∀ point : Point, contains subdividedT.boundary point = true ↔
      (contains (topLeftB (originB 1 1)) point = true ∨
       contains (bottomLeftB (originB 1 1)) point = true ∨
       contains (topRightB (originB 1 1)) point = true ∨
       contains (bottomRightB (originB 1 1)) point = true)) ∧
    (∀ point : Point,
      ((contains (topLeftB (originB 1 1)) point = true ∧
        contains (bottomLeftB (originB 1 1)) point = true) ∨
       (contains (topLeftB (originB 1 1)) point = true ∧
        contains (topRightB (originB 1 1)) point = true) ∨
       (contains (topLeftB (originB 1 1)) point = true ∧
        contains (bottomRightB (originB 1 1)) point = true) ∨
       (contains (bottomLeftB (originB 1 1)) point = true ∧
        contains (topRightB (originB 1 1)) point = true) ∨
       (contains (bottomLeftB (originB 1 1)) point = true ∧
        contains (bottomRightB (originB 1 1)) point = true) ∨
       (contains (topRightB (originB 1 1)) point = true ∧
        contains (bottomRightB (originB 1 1)) point = true)) →
      point.1 = mid_x subdividedT.boundary ∨ point.2 = mid_y subdividedT.boundary)) := by
  have hr : Reachable subdividedT :=
    ⟨originB 1 1, List.replicate MAX_CAPACITY ((0:ℚ), (0:ℚ)) ++ [((3/4 : ℚ), (3/4 : ℚ))],
      built_subdividedT⟩
  have hc := children_partition_parent subdividedT hr [] subdividedT rfl
    (Quadtree.mk (topLeftB (originB 1 1))
      (List.replicate MAX_CAPACITY ((0:ℚ), (0:ℚ))) none none none none)
    (Quadtree.mk (bottomLeftB (originB 1 1)) [] none none none none)
    (Quadtree.mk (topRightB (originB 1 1)) [] none none none none)
    (Quadtree.mk (bottomRightB (originB 1 1))
      [((3/4 : ℚ), (3/4 : ℚ))] none none none none)
    rfl rfl rfl rfl
  exact ⟨hr, rfl, rfl, rfl, rfl, rfl, hc⟩

/-- C7: when a point inside a subdivided node matches several children
(it lies on a shared edge, where the inclusive containment test accepts
more than one child), it is deposited into exactly one child — the first
matching child in the fixed order top left, bottom left, top right, bottom
right — with the other children untouched; the same fixed order and outcome
govern the four chained child inserts of insert and the redistribution loop
of subdivide, so placement is deterministic. -/
theorem tie_break_first_child (fuel : Nat) (b : Boundary) (pts : List Point)
    (c1 c2 c3 c4 : Quadtree) (point : Point)
    (w1 : WF c1 = true) (w2 : WF c2 = true) (w3 : WF c3 = true) (w4 : WF c4 = true)
    (hq1 : c1.boundary = topLeftB b) (hq2 : c2.boundary = bottomLeftB b)
    (hq3 : c3.boundary = topRightB b) (hq4 : c4.boundary = bottomRightB b)
    (hc : contains b point = true) :
    (∀ (r : Bool) (t' : Quadtree),
      insertChildren (fun u q => insert fuel u q)
        (Quadtree.mk b pts (some c1) (some c2) (some c3) (some c4)) point =
        some (r, t') →
      r = true ∧
      (contains c1.boundary point = true →
        ∃ d1, insert fuel c1 point = some (true, d1) ∧
          t' = Quadtree.mk b pts (some d1) (some c2) (some c3) (some c4) ∧
          d1.elems.Perm (point :: c1.elems)) ∧
      (contains c1.boundary point = false → contains c2.boundary point = true →
        ∃ d2, insert fuel c2 point = some (true, d2) ∧
          t' = Quadtree.mk b pts (some c1) (some d2) (some c3) (some c4) ∧
          d2.elems.Perm (point :: c2.elems)) ∧
      (contains c1.boundary point = false → contains c2.boundary point = false →
       contains c3.boundary point = true →
        ∃ d3, insert fuel c3 point = some (true, d3) ∧
          t' = Quadtree.mk b pts (some c1) (some c2) (some d3) (some c4) ∧
          d3.elems.Perm (point :: c3.elems)) ∧
      (contains c1.boundary point = false → contains c2.boundary point = false →
       contains c3.boundary point = false → contains c4.boundary point = true →
        ∃ d4, insert fuel c4 point = some (true, d4) ∧
          t' = Quadtree.mk b pts (some c1) (some c2) (some c3) (some d4) ∧
          d4.elems.Perm (point :: c4.elems))) ∧
    (∀ (rb : Bool) (m1 m2 m3 m4 : Quadtree),
      tryFour (fun u q => insert fuel u q) (c1, c2, c3, c4) point =
        some (rb, (m1, m2, m3, m4)) →
      rb = true ∧
      (contains c1.boundary point = true →
        insert fuel c1 point = some (true, m1) ∧ m1.elems.Perm (point :: c1.elems) ∧
        m2 = c2 ∧ m3 = c3 ∧ m4 = c4) ∧
      (contains c1.boundary point = false → contains c2.boundary point = true →
        m1 = c1 ∧ insert fuel c2 point = some (true, m2) ∧
        m2.elems.Perm (point :: c2.elems) ∧ m3 = c3 ∧ m4 = c4) ∧
      (contains c1.boundary point = false → contains c2.boundary point = false →
       contains c3.boundary point = true →
        m1 = c1 ∧ m2 = c2 ∧ insert fuel c3 point = some (true, m3) ∧
        m3.elems.Perm (point :: c3.elems) ∧ m4 = c4) ∧
      (contains c1.boundary point = false → contains c2.boundary point = false →
       contains c3.boundary point = false → contains c4.boundary point = true →
        m1 = c1 ∧ m2 = c2 ∧ m3 = c3 ∧ insert fuel c4 point = some (true, m4) ∧
        m4.elems.Perm (point :: c4.elems))) := by
  have hcov : contains c1.boundary point = true ∨ contains c2.boundary point = true ∨
      contains c3.boundary point = true ∨ contains c4.boundary point = true := by
    rw [hq1, hq2, hq3, hq4]
    exact quad_cover b point hc
  constructor
  · intro r t' h
    rcases insertChildren_spec (insert_ok fuel) w1 w2 w3 w4 h with
      ⟨_, _, n1, n2, n3, n4⟩ |
      ⟨hr, hcon, d1, hins, ht', _, _, pd, _⟩ |
      ⟨hr, hn1, hcon, d2, hins, ht', _, _, pd, _⟩ |
      ⟨hr, hn1, hn2, hcon, d3, hins, ht', _, _, pd, _⟩ |
      ⟨hr, hn1, hn2, hn3, hcon, d4, hins, ht', _, _, pd, _⟩
    · rcases hcov with hcv | hcv | hcv | hcv
      · rw [hcv] at n1; exact Bool.noConfusion n1
      · rw [hcv] at n2; exact Bool.noConfusion n2
      · rw [hcv] at n3; exact Bool.noConfusion n3
      · rw [hcv] at n4; exact Bool.noConfusion n4
    · refine ⟨hr, fun _ => ⟨d1, hins, ht', pd⟩, ?_, ?_, ?_⟩
      · intro hf _; rw [hf] at hcon; exact Bool.noConfusion hcon
      · intro hf _ _; rw [hf] at hcon; exact Bool.noConfusion hcon
      · intro hf _ _ _; rw [hf] at hcon; exact Bool.noConfusion hcon
    · refine ⟨hr, ?_, fun _ _ => ⟨d2, hins, ht', pd⟩, ?_, ?_⟩
      · intro hf; rw [hf] at hn1; exact Bool.noConfusion hn1
      · intro _ hf _; rw [hf] at hcon; exact Bool.noConfusion hcon
      · intro _ hf _ _; rw [hf] at hcon; exact Bool.noConfusion hcon
    · refine ⟨hr, ?_, ?_, fun _ _ _ => ⟨d3, hins, ht', pd⟩, ?_⟩
      · intro hf; rw [hf] at hn1; exact Bool.noConfusion hn1
      · intro _ hf; rw [hf] at hn2; exact Bool.noConfusion hn2
      · intro _ _ hf _; rw [hf] at hcon; exact Bool.noConfusion hcon
    · refine ⟨hr, ?_, ?_, ?_, fun _ _ _ _ => ⟨d4, hins, ht', pd⟩⟩
      · intro hf; rw [hf] at hn1; exact Bool.noConfusion hn1
      · intro _ hf; rw [hf] at hn2; exact Bool.noConfusion hn2
      · intro _ _ hf; rw [hf] at hn3; exact Bool.noConfusion hn3
  · intro rb m1 m2 m3 m4 h
    rcases tryFour_spec (insert_ok fuel) w1 w2 w3 w4 h with
      ⟨_, _, _, _, _, n1, n2, n3, n4⟩ |
      ⟨hr, hcon, hins, _, _, pd, _, e2, e3, e4⟩ |
      ⟨hr, hn1, e1, hcon, hins, _, _, pd, _, e3, e4⟩ |
      ⟨hr, hn1, e1, hn2, e2, hcon, hins, _, _, pd, _, e4⟩ |
      ⟨hr, hn1, e1, hn2, e2, hn3, e3, hcon, hins, _, _, pd, _⟩
    · rcases hcov with hcv | hcv | hcv | hcv
      · rw [hcv] at n1; exact Bool.noConfusion n1
      · rw [hcv] at n2; exact Bool.noConfusion n2
      · rw [hcv] at n3; exact Bool.noConfusion n3
      · rw [hcv] at n4; exact Bool.noConfusion n4
    · refine ⟨hr, fun _ => ⟨hins, pd, e2, e3, e4⟩, ?_, ?_, ?_⟩
      · intro hf _; rw [hf] at hcon; exact Bool.noConfusion hcon
      · intro hf _ _; rw [hf] at hcon; exact Bool.noConfusion hcon
      · intro hf _ _ _; rw [hf] at hcon; exact Bool.noConfusion hcon
    · refine ⟨hr, ?_, fun _ _ => ⟨e1, hins, pd, e3, e4⟩, ?_, ?_⟩
      · intro hf; rw [hf] at hn1; exact Bool.noConfusion hn1
      · intro _ hf _; rw [hf] at hcon; exact Bool.noConfusion hcon
      · intro _ hf _ _; rw [hf] at hcon; exact Bool.noConfusion hcon
    · refine ⟨hr, ?_, ?_, fun _ _ _ => ⟨e1, e2, hins, pd, e4⟩, ?_⟩
      · intro hf; rw [hf] at hn1; exact Bool.noConfusion hn1
      · intro _ hf; rw [hf] at hn2; exact Bool.noConfusion hn2
      · intro _ _ hf _; rw [hf] at hcon; exact Bool.noConfusion hcon
    · refine ⟨hr, ?_, ?_, ?_, fun _ _ _ _ => ⟨e1, e2, e3, hins, pd⟩⟩
      · intro hf; rw [hf] at hn1; exact Bool.noConfusion hn1
      · intro _ hf; rw [hf] at hn2; exact Bool.noConfusion hn2
      · intro _ _ hf; rw [hf] at hn3; exact Bool.noConfusion hn3

/-- C7 witness: the center point of a two by two square lies on the shared
edges of all four quadrant children; the hypotheses hold for four fresh
empty children. -/
theorem tie_break_first_child_witness :
    WF (Quadtree.mk (topLeftB ⟨0, 2, 0, 2⟩) [] none none none none) = true ∧
    WF (Quadtree.mk (bottomLeftB ⟨0, 2, 0, 2⟩) [] none none none none) = true ∧
    WF (Quadtree.mk (topRightB ⟨0, 2, 0, 2⟩) [] none none none none) = true ∧
    WF (Quadtree.mk (bottomRightB ⟨0, 2, 0, 2⟩) [] none none none none) = true ∧
    (Quadtree.mk (topLeftB ⟨0, 2, 0, 2⟩) [] none none none none).boundary =
      topLeftB ⟨0, 2, 0, 2⟩ ∧
    (Quadtree.mk (bottomLeftB ⟨0, 2, 0, 2⟩) [] none none none none).boundary =
      bottomLeftB ⟨0, 2, 0, 2⟩ ∧
    (Quadtree.mk (topRightB ⟨0, 2, 0, 2⟩) [] none none none none).boundary =
      topRightB ⟨0, 2, 0, 2⟩ ∧
    (Quadtree.mk (bottomRightB ⟨0, 2, 0, 2⟩) [] none none none none).boundary =
      bottomRightB ⟨0, 2, 0, 2⟩ ∧
    contains ⟨0, 2, 0, 2⟩ ((1:ℚ), (1:ℚ)) = true ∧
    (∀ (r : Bool) (t' : Quadtree),
      insertChildren (fun u q => insert 1 u q)
        (Quadtree.mk ⟨0, 2, 0, 2⟩ []
          (some (Quadtree.mk (topLeftB ⟨0, 2, 0, 2⟩) [] none none none none))
          (some (Quadtree.mk (bottomLeftB ⟨0, 2, 0, 2⟩) [] none none none none))
          (some (Quadtree.mk (topRightB ⟨0, 2, 0, 2⟩) [] none none none none))
          (some (Quadtree.mk (bottomRightB ⟨0, 2, 0, 2⟩) [] none none none none)))
        ((1:ℚ), (1:ℚ)) = some (r, t') →
      r = true ∧
      (contains (Quadtree.mk (topLeftB ⟨0, 2, 0, 2⟩) [] none none none none).boundary
          ((1:ℚ), (1:ℚ)) = true →
        ∃ d1, insert 1 (Quadtree.mk (topLeftB ⟨0, 2, 0, 2⟩) [] none none none none)
            ((1:ℚ), (1:ℚ)) = some (true, d1) ∧
          t' = Quadtree.mk ⟨0, 2, 0, 2⟩ [] (some d1)
            (some (Quadtree.mk (bottomLeftB ⟨0, 2, 0, 2⟩) [] none none none none))
            (some (Quadtree.mk (topRightB ⟨0, 2, 0, 2⟩) [] none none none none))
            (some (Quadtree.mk (bottomRightB ⟨0, 2, 0, 2⟩) [] none none none none)) ∧
          d1.elems.Perm (((1:ℚ), (1:ℚ)) ::
            (Quadtree.mk (topLeftB ⟨0, 2, 0, 2⟩) [] none none none none).elems)) ∧
      (contains (Quadtree.mk (topLeftB ⟨0, 2, 0, 2⟩) [] none none none none).boundary
          ((1:ℚ), (1:ℚ)) = false →
        contains (Quadtree.mk (bottomLeftB ⟨0, 2, 0, 2⟩) [] none none none none).boundary
          ((1:ℚ), (1:ℚ)) = true →
        ∃ d2, insert 1 (Quadtree.mk (bottomLeftB ⟨0, 2, 0, 2⟩) [] none none none none)
            ((1:ℚ), (1:ℚ)) = some (true, d2) ∧
          t' = Quadtree.mk ⟨0, 2, 0, 2⟩ []
            (some (Quadtree.mk (topLeftB ⟨0, 2, 0, 2⟩) [] none none none none)) (some d2)
            (some (Quadtree.mk (topRightB ⟨0, 2, 0, 2⟩) [] none none none none))
            (some (Quadtree.mk (bottomRightB ⟨0, 2, 0, 2⟩) [] none none none none)) ∧
          d2.elems.Perm (((1:ℚ), (1:ℚ)) ::
            (Quadtree.mk (bottomLeftB ⟨0, 2, 0, 2⟩) [] none none none none).elems)) ∧
      (contains (Quadtree.mk (topLeftB ⟨0, 2, 0, 2⟩) [] none none none none).boundary
          ((1:ℚ), (1:ℚ)) = false →
        contains (Quadtree.mk (bottomLeftB ⟨0, 2, 0, 2⟩) [] none none none none).boundary
          ((1:ℚ), (1:ℚ)) = false →
        contains (Quadtree.mk (topRightB ⟨0, 2, 0, 2⟩) [] none none none none).boundary
          ((1:ℚ), (1:ℚ)) = true →
        ∃ d3, insert 1 (Quadtree.mk (topRightB ⟨0, 2, 0, 2⟩) [] none none none none)
            ((1:ℚ), (1:ℚ)) = some (true, d3) ∧
          t' = Quadtree.mk ⟨0, 2, 0, 2⟩ []
            (some (Quadtree.mk (topLeftB ⟨0, 2, 0, 2⟩) [] none none none none))
            (some (Quadtree.mk (bottomLeftB ⟨0, 2, 0, 2⟩) [] none none none none)) (some d3)
            (some (Quadtree.mk (bottomRightB ⟨0, 2, 0, 2⟩) [] none none none none)) ∧
          d3.elems.Perm (((1:ℚ), (1:ℚ)) ::
            (Quadtree.mk (topRightB ⟨0, 2, 0, 2⟩) [] none none none none).elems)) ∧
      (contains (Quadtree.mk (topLeftB ⟨0, 2, 0, 2⟩) [] none none none none).boundary
          ((1:ℚ), (1:ℚ)) = false →
        contains (Quadtree.mk (bottomLeftB ⟨0, 2, 0, 2⟩) [] none none none none).boundary
          ((1:ℚ), (1:ℚ)) = false →
        contains (Quadtree.mk (topRightB ⟨0, 2, 0, 2⟩) [] none none none none).boundary
          ((1:ℚ), (1:ℚ)) = false →
        contains (Quadtree.mk (bottomRightB ⟨0, 2, 0, 2⟩) [] none none none none).boundary
          ((1:ℚ), (1:ℚ)) = true →
        ∃ d4, insert 1 (Quadtree.mk (bottomRightB ⟨0, 2, 0, 2⟩) [] none none none none)
            ((1:ℚ), (1:ℚ)) = some (true, d4) ∧
          t' = Quadtree.mk ⟨0, 2, 0, 2⟩ []
            (some (Quadtree.mk (topLeftB ⟨0, 2, 0, 2⟩) [] none none none none))
            (some (Quadtree.mk (bottomLeftB ⟨0, 2, 0, 2⟩) [] none none none none))
            (some (Quadtree.mk (topRightB ⟨0, 2, 0, 2⟩) [] none none none none)) (some d4) ∧
          d4.elems.Perm (((1:ℚ), (1:ℚ)) ::
            (Quadtree.mk (bottomRightB ⟨0, 2, 0, 2⟩) [] none none none none).elems))) := by
  have hwe : ∀ bq : Boundary, WF (Quadtree.mk bq [] none none none none) = true :=
    fun bq => WF_leaf_intro (by simp [MAX_CAPACITY]) (by simp)
  have hc : contains ⟨0, 2, 0, 2⟩ ((1:ℚ), (1:ℚ)) = true := by decide
  exact ⟨hwe _, hwe _, hwe _, hwe _, rfl, rfl, rfl, rfl, hc,
    (tie_break_first_child 1 ⟨0, 2, 0, 2⟩ []
      (Quadtree.mk (topLeftB ⟨0, 2, 0, 2⟩) [] none none none none)
      (Quadtree.mk (bottomLeftB ⟨0, 2, 0, 2⟩) [] none none none none)
      (Quadtree.mk (topRightB ⟨0, 2, 0, 2⟩) [] none none none none)
      (Quadtree.mk (bottomRightB ⟨0, 2, 0, 2⟩) [] none none none none)
      ((1:ℚ), (1:ℚ)) (hwe _) (hwe _) (hwe _) (hwe _) rfl rfl rfl rfl hc).1⟩


end Quad
